import Mathlib

/-!
# Minetrack server-list reload cycle (`main.js`)

A shallow embedding of `main.js`: the two source loaders, the colour
derivation that is inlined in `initializeApp`, the rebuild of
`app.serverRegistrations`, the configuration defaults and the readiness
notification.

Modelling conventions.

* JavaScript numbers that hold integers are `Int`; the only 32-bit operation
  of the source is the shift `hash << 5`, embedded with an explicit wrap
  (`toInt32`).  The integers that occur stay far below `2 ^ 53` for every
  name shorter than two million characters (`nameHash_bound`), so the
  double-precision arithmetic of the source is exact on them.
* `Math.sin` is an external function; it is a field of `Env`.  Its results
  are doubles, hence rationals.  The arithmetic that follows it is written
  once for every ordered field with a floor function, so the theorems about
  it hold for the rationals and for the reals alike.  The product
  `Math.sin(hash) * 10000` is rounded in double precision while it is exact
  here; the remainder, the scaling by a power of two, the absolute value and
  the floor are exact in both.  The theorems about the colour quantify over
  every value of the sine, so they cover the rounded product `p` as the case
  `s = p / 10000`.
* A JavaScript string that is indexed with `charCodeAt` is the list of its
  UTF-16 code units.
* Calls to collaborators that live outside `main.js` (`logger.log`,
  `new ServerRegistration`, `app.handleReady`, `app.loadDatabase`,
  `Math.sin`) are recorded in an event trace, in program order.
* A loaded descriptor is a JSON object whose `name` and `color`, when
  present, are strings; every other field is carried along untouched.
* Of the collaborators only the `ServerRegistration` constructor is allowed
  to throw; `logger.log`, `app.handleReady` and `app.loadDatabase` return.
-/

namespace Minetrack

/-! ## Numbers -/

/-- ToInt32 of ECMAScript on an integer-valued number: reduction modulo
`2 ^ 32` into the signed range. -/
def toInt32 (x : Int) : Int := (x + 2147483648) % 4294967296 - 2147483648

/-- The expression `hash << 5`: both the operand and the result are
converted with ToInt32. -/
def shiftLeft5 (hash : Int) : Int := toInt32 (toInt32 hash * 32)

/-- One iteration of the loop body,
`hash = server.name.charCodeAt(i) + ((hash << 5) - hash)`.  Only the shift is
a 32-bit operation; the subtraction and the addition are ordinary number
arithmetic. -/
def hashStep (hash : Int) (charCode : Nat) : Int :=
  (charCode : Int) + (shiftLeft5 hash - hash)

/-- The loop `for (let i = server.name.length - 1; i >= 0; i--)` started from
`hash = 0`: the last code unit is consumed first. -/
def nameHash (name : List Nat) : Int :=
  name.foldr (fun c h => hashStep h c) 0

/-- The polynomial `charCode(0) + 31 * charCode(1) + 31 ^ 2 * charCode(2) + ...`
over the code units of a name, without any wrapping. -/
def polySum : List Nat → Int
  | [] => 0
  | c :: rest => (c : Int) + 31 * polySum rest

/-- Truncation toward zero, the rounding that the `%` operator of JavaScript
applies to the quotient. -/
def jsTrunc {α : Type} [LinearOrderedField α] [FloorRing α] (x : α) : Int :=
  if 0 ≤ x then ⌊x⌋ else ⌈x⌉

/-- The `%` operator of JavaScript for a non-zero divisor: the remainder takes
the sign of the dividend. -/
def jsRem {α : Type} [LinearOrderedField α] [FloorRing α] (x y : α) : α :=
  x - y * (jsTrunc (x / y) : Int)

/-- The number `Math.floor(Math.abs((Math.sin(hash) * 10000) % 1 * 16777216))`
as a function of `s = Math.sin(hash)`. -/
def colorValue {α : Type} [LinearOrderedField α] [FloorRing α] (s : α) : Int :=
  ⌊|jsRem (s * 10000) 1 * 16777216|⌋

/-- The formula of the specification, following its words: take the absolute
value of the sine, scale by 10000, take the fractional part, scale by
16777216, floor. -/
def specColorValue {α : Type} [LinearOrderedField α] [FloorRing α] (s : α) : Int :=
  ⌊Int.fract (|s| * 10000) * 16777216⌋

/-! ## Strings -/

/-- The method call `toString(16)` on an integer-valued number. -/
def toStringHex (v : Int) : List Char :=
  if v < 0 then '-' :: Nat.toDigits 16 v.natAbs else Nat.toDigits 16 v.toNat

/-- The expression `Array(6 - color.length + 1).join('0')`: a negative array
length throws a RangeError, a length `n` joins `n` empty slots with `n - 1`
zeros. -/
def zeroPadding (len : Nat) : Except String (List Char) :=
  let n : Int := 6 - (len : Int) + 1
  if n < 0 then .error "Invalid array length" else .ok (List.replicate (n.toNat - 1) '0')

/-- A lower-case hexadecimal digit. -/
def isHexDigit (c : Char) : Bool := "0123456789abcdef".toList.contains c

/-- Lines 57 to 62 of `main.js`: the constant `color`, the hexadecimal digits
of the colour value before padding. -/
def colorDigits (sin : Int → ℚ) (name : List Nat) : List Char :=
  toStringHex (colorValue (sin (nameHash name)))

/-- Lines 57 to 63 of `main.js`: the colour that is derived from a name,
`'#' + Array(6 - color.length + 1).join('0') + color`. -/
def deriveColor (sin : Int → ℚ) (name : List Nat) : Except String String :=
  match zeroPadding (colorDigits sin name).length with
  | .error e => .error e
  | .ok zeros => .ok (String.mk ('#' :: (zeros ++ colorDigits sin name)))

/-! ## Data model -/

deriving instance DecidableEq for Except

/-- One entry of the loaded list. -/
structure Descriptor where
  name : Option (List Nat)
  color : Option String
  extra : List (String × String)
deriving DecidableEq

/-- The value a loader resolves with: a list of descriptors, or some JSON
value that is not an array. -/
inductive Loaded where
  | list (servers : List Descriptor)
  | notList
deriving DecidableEq

/-- The object made by `new ServerRegistration(app, serverId, server)`: a
fresh object identity together with the arguments it was constructed from.
There is one `app`, so the reference to it is not stored. -/
structure Registration where
  objectId : Nat
  serverId : Nat
  data : Descriptor
deriving DecidableEq

/-- Levels of `logger.log`. -/
inductive Level where
  | info
  | warn
  | error
deriving DecidableEq

/-- Calls that leave `main.js`, as they appear in the trace.  A `construct`
event also records what `app.serverRegistrations` held when the constructor
received `app`. -/
inductive Event where
  | log (level : Level) (message : String)
  | mathSin (hash : Int)
  | construct (seen : List Registration) (serverId : Nat) (server : Descriptor)
  | loadDatabase
  | databaseCallback
  | handleReady
deriving DecidableEq

/-- The fields of `config` that `main.js` reads. -/
structure Config where
  serversUrl : Option String
  serverGraphDuration : Option Int
  logToDatabase : Option Bool
deriving DecidableEq

/-- The mutable state of the process: the registry of `app`, the `config`
object and the allocation counter for object identities.  The constant
`serversUrl` is read from `config` once and `main.js` never writes that
field, so it is read from `config` here. -/
structure AppState where
  serverRegistrations : List Registration
  config : Config
  nextObjectId : Nat
deriving DecidableEq

/-- External functions that are fixed for the life of the process. -/
structure Env where
  /-- The function `Math.sin` on the integers the hash can take. -/
  sin : Int → ℚ
  /-- The function `JSON.parse` on the text of the local file. -/
  jsonParse : String → Except String Loaded
  /-- The message of the error the `ServerRegistration` constructor throws, if
  it throws, given what the registry of `app` holds, the position and the
  descriptor. -/
  ctorThrows : List Registration → Nat → Descriptor → Option String

/-- How `fetch(url)` settles: it rejects, or it resolves with a response whose
`json()` either parses or rejects. -/
inductive FetchOutcome where
  | rejected (message : String)
  | response (ok : Bool) (statusText : String) (json : Except String Loaded)

/-- How `fs.readFile` calls back. -/
inductive ReadOutcome where
  | err (message : String)
  | data (text : String)

/-- What the outside world does during one cycle. -/
structure CycleInput where
  /-- How `fetch` settles, when a URL is configured. -/
  fetched : FetchOutcome
  /-- How `fs.readFile` calls back, when no URL is configured. -/
  read : ReadOutcome
  /-- How many times `app.loadDatabase` invokes the callback it is given. -/
  databaseCallbackRuns : Nat

/-- Where a cycle ended: `ready` when the `then` handler ran to its end,
otherwise the phase whose error reached the `catch` handler. -/
inductive Outcome where
  | ready
  | failedLoading
  | failedEnriching
deriving DecidableEq

/-- The result of one call of `initializeApp`. -/
structure CycleResult where
  state : AppState
  trace : List Event
  outcome : Outcome

/-! ## Truthiness -/

/-- Truthiness of an optional string: absent and empty are falsy. -/
def truthyString : Option String → Bool
  | none => false
  | some s => s != ""

/-- Truthiness of an optional number: absent and zero are falsy. -/
def truthyNumber : Option Int → Bool
  | none => false
  | some v => v != 0

/-- Truthiness of an optional boolean. -/
def truthyBool : Option Bool → Bool
  | none => false
  | some b => b

/-! ## Source loaders -/

/-- The function `loadServersFromUrl`. -/
def loadServersFromUrl : FetchOutcome → Except String Loaded
  | .rejected message => .error message
  | .response ok statusText json =>
    if !ok then .error ("Network response was not ok: " ++ statusText) else json

/-- The function `loadServersFromLocalFile`. -/
def loadServersFromLocalFile (env : Env) : ReadOutcome → Except String Loaded
  | .err message => .error message
  | .data text => env.jsonParse text

/-! ## The reload cycle -/

/-- Lines 56 to 64: the guard `if (!server.color)` and the assignment of the
derived colour.  Returns the calls made and the descriptor as it is
afterwards, or the error thrown. -/
def backfillColor (env : Env) (server : Descriptor) : List Event × Except String Descriptor :=
  if !truthyString server.color then
    match server.name with
    | none => ([], .error "Cannot read properties of undefined (reading 'length')")
    | some name =>
      match deriveColor env.sin name with
      | .error e => ([.mathSin (nameHash name)], .error e)
      | .ok color => ([.mathSin (nameHash name)], .ok { server with color := some color })
  else ([], .ok server)

/-- The variables the `forEach` loop works on. -/
structure LoopState where
  registrations : List Registration
  nextObjectId : Nat
  trace : List Event

/-- The loop `servers.forEach((server, serverId) => ...)` of lines 54 to 68,
from position `serverId` on.  The second component is the error that ended
the loop, if any. -/
def forEachServer (env : Env) : List Descriptor → Nat → LoopState → LoopState × Option String
  | [], _, s => (s, none)
  | server :: rest, serverId, s =>
    match backfillColor env server with
    | (calls, .error e) => ({ s with trace := s.trace ++ calls }, some e)
    | (calls, .ok server1) =>
      let s1 : LoopState :=
        { registrations := s.registrations
          nextObjectId := s.nextObjectId + 1
          trace := s.trace ++ calls ++ [.construct s.registrations serverId server1] }
      match env.ctorThrows s.registrations serverId server1 with
      | some e => (s1, some e)
      | none =>
        forEachServer env rest (serverId + 1)
          { s1 with registrations :=
              s.registrations ++ [⟨s.nextObjectId, serverId, server1⟩] }

/-- The warning of line 71. -/
def graphDurationWarning : String :=
  "\"serverGraphDuration\" is not defined in config.json - defaulting to 3 minutes!"

/-- The warning of line 76. -/
def databaseWarning : String :=
  "Database logging is not enabled. You can enable it by setting \"logToDatabase\" to true in config.json. This requires sqlite3 to be installed."

/-- Lines 70 to 73. -/
def applyGraphDurationDefault (config : Config) : Config × List Event :=
  if !truthyNumber config.serverGraphDuration then
    ({ config with serverGraphDuration := some (3 * 60 * 1000) }, [.log .warn graphDurationWarning])
  else (config, [])

/-- Lines 75 to 83.  `app.loadDatabase` is given the callback
`() => { app.handleReady(); }` and invokes it `callbackRuns` times. -/
def signalReady (config : Config) (callbackRuns : Nat) : List Event :=
  if !truthyBool config.logToDatabase then
    [.log .warn databaseWarning, .handleReady]
  else
    .loadDatabase :: (List.replicate callbackRuns [Event.databaseCallback, Event.handleReady]).flatten

/-- The `catch` handler of lines 85 to 87. -/
def catchHandler (message : String) : List Event :=
  [.log .error ("Failed to load servers: " ++ message)]

/-- The text `serversUrl || 'local servers.json'`. -/
def sourceLabel (serversUrl : Option String) : String :=
  match serversUrl with
  | none => "local servers.json"
  | some url => if url != "" then url else "local servers.json"

/-- Line 46, `serversUrl ? loadServersFromUrl(serversUrl) :
loadServersFromLocalFile(localServersPath)`, with the way the promise settles. -/
def loadServers (env : Env) (input : CycleInput) (st : AppState) : Except String Loaded :=
  if truthyString st.config.serversUrl then loadServersFromUrl input.fetched
  else loadServersFromLocalFile env input.read

/-- The function `initializeApp`, one reload cycle. -/
def initializeApp (env : Env) (input : CycleInput) (st : AppState) : CycleResult :=
  match loadServers env input st with
  | .error message => ⟨st, catchHandler message, .failedLoading⟩
  | .ok servers =>
    let trace0 : List Event := [.log .info ("Loading servers from " ++ sourceLabel st.config.serversUrl)]
    match servers with
    | .notList =>
      ⟨{ st with serverRegistrations := [] },
        trace0 ++ catchHandler "servers.forEach is not a function", .failedEnriching⟩
    | .list descriptors =>
      match forEachServer env descriptors 0 ⟨[], st.nextObjectId, trace0⟩ with
      | (s, some message) =>
        ⟨{ st with serverRegistrations := s.registrations, nextObjectId := s.nextObjectId },
          s.trace ++ catchHandler message, .failedEnriching⟩
      | (s, none) =>
        let defaulted := applyGraphDurationDefault st.config
        ⟨{ serverRegistrations := s.registrations
           config := defaulted.1
           nextObjectId := s.nextObjectId },
          s.trace ++ defaulted.2 ++ signalReady defaulted.1 input.databaseCallbackRuns, .ready⟩

/-- Successive calls of `initializeApp`, the first one at start-up and one for
each firing of the `setInterval` timer; the results are listed in order. -/
def runCycles (env : Env) : List CycleInput → AppState → List CycleResult
  | [], _ => []
  | input :: later, st =>
    let r := initializeApp env input st
    r :: runCycles env later r.state

/-! ## Observations on traces -/

/-- The constructor calls of a trace, in order: what the registry held, the
position passed and the descriptor passed. -/
def constructions (trace : List Event) : List (List Registration × Nat × Descriptor) :=
  trace.filterMap fun e =>
    match e with
    | .construct seen serverId server => some (seen, serverId, server)
    | _ => none

/-- The descriptor as the loop body leaves it: with its colour backfilled. -/
def backfilled (env : Env) (server : Descriptor) : Descriptor :=
  match (backfillColor env server).2 with
  | .ok server1 => server1
  | .error _ => server

/-- Number of calls of `app.handleReady` in a trace. -/
def readyCount (trace : List Event) : Nat := trace.count .handleReady

/-- Number of calls of `app.loadDatabase` in a trace. -/
def loadDatabaseCount (trace : List Event) : Nat := trace.count .loadDatabase

/-- Number of error-level diagnostics in a trace. -/
def errorCount (trace : List Event) : Nat :=
  trace.countP (fun e => match e with
    | .log .error _ => true
    | _ => false)

/-- Number of warnings about `serverGraphDuration` in a trace. -/
def graphDurationWarnings (trace : List Event) : Nat :=
  trace.count (.log .warn graphDurationWarning)

/-- Every object in the registry was allocated before `nextObjectId`. -/
def AppState.WellFormed (st : AppState) : Prop :=
  ∀ r ∈ st.serverRegistrations, r.objectId < st.nextObjectId

/-- The diagnostic of line 50. -/
def loadingLine (st : AppState) : Event :=
  .log .info ("Loading servers from " ++ sourceLabel st.config.serversUrl)

/-- The loop variables after line 52: the registry has been cleared. -/
def loopStart (st : AppState) : LoopState := ⟨[], st.nextObjectId, [loadingLine st]⟩

/-- What a run of the loop from position `k` and state `s` to state `f` adds:
the registrations `regs` and the calls `calls`. -/
structure LoopAdds (env : Env) (ds : List Descriptor) (k : Nat) (s f : LoopState)
    (regs : List Registration) (calls : List Event) : Prop where
  registrations_eq : f.registrations = s.registrations ++ regs
  trace_eq : f.trace = s.trace ++ calls
  next_le : s.nextObjectId ≤ f.nextObjectId
  fresh : ∀ r ∈ regs, s.nextObjectId ≤ r.objectId ∧ r.objectId < f.nextObjectId
  calls_kind : ∀ e ∈ calls, (∃ h, e = .mathSin h) ∨ ∃ seen i d, e = .construct seen i d
  seen_eq : ∀ x ∈ constructions calls,
    x.1 = (s.registrations ++ regs).take x.2.1 ∧ x.1.length = x.2.1 ∧
    ∃ d, ds[x.2.1 - k]? = some d ∧ k ≤ x.2.1 ∧ (backfillColor env d).2 = .ok x.2.2
  pairs_eq : ∃ tail, (constructions calls).map (fun x => (x.2.1, x.2.2)) =
    regs.map (fun r => (r.serverId, r.data)) ++ tail

/-! ## Sample data -/

/-- The code units of the name `Mineplex`. -/
def mineplex : List Nat := [77, 105, 110, 101, 112, 108, 101, 120]

/-- The code units of the name `Alpha`. -/
def alphaName : List Nat := [65, 108, 112, 104, 97]

/-- The code units of the name `Beta`. -/
def betaName : List Nat := [66, 101, 116, 97]

/-- The descriptor with name `Alpha` and no colour. -/
def alpha : Descriptor := ⟨some alphaName, none, []⟩

/-- The descriptor with name `Beta` and colour `#112233`. -/
def beta : Descriptor := ⟨some betaName, some "#112233", []⟩

/-- A stand-in for the external functions: a rational-valued stub in place of
`Math.sin`, a parser that yields the two sample descriptors, a constructor
that never throws. -/
def sampleEnv : Env :=
  { sin := fun h => ((h % 7 : Int) : ℚ) / 9
    jsonParse := fun _ => .ok (.list [alpha, beta])
    ctorThrows := fun _ _ _ => none }

/-- A registration left by an earlier cycle. -/
def oldRegistration : Registration := ⟨0, 0, beta⟩

/-- A process that reads the local file, with no graph duration and no
database logging configured, and one registration installed. -/
def localState : AppState := ⟨[oldRegistration], ⟨none, none, none⟩, 1⟩

/-- A process that fetches from a URL, with a graph duration and database
logging configured, and one registration installed. -/
def remoteState : AppState :=
  ⟨[oldRegistration], ⟨some "https://example.org/servers.json", some 60000, some true⟩, 1⟩

/-- A cycle in which the file is read and the database callback runs once. -/
def fileInput : CycleInput := ⟨.rejected "unused", .data "unused", 1⟩

/-- A cycle in which the server answers with status 502. -/
def badGatewayInput : CycleInput :=
  ⟨.response false "Bad Gateway" (.error "unused"), .err "unused", 1⟩

/-- A cycle in which the server answers with a JSON object, not an array. -/
def objectInput : CycleInput := ⟨.response true "OK" (.ok .notList), .err "unused", 1⟩

/-- A cycle in which the server answers with the two sample descriptors. -/
def listInput : CycleInput :=
  ⟨.response true "OK" (.ok (.list [alpha, beta])), .err "unused", 1⟩

/-- A descriptor with neither a name nor a colour. -/
def nameless : Descriptor := ⟨none, none, []⟩

/-- A cycle in which the server answers with `alpha` followed by a descriptor
that has no name. -/
def namelessInput : CycleInput :=
  ⟨.response true "OK" (.ok (.list [alpha, nameless])), .err "unused", 1⟩

/-- External functions whose constructor throws at position 1. -/
def throwingEnv : Env :=
  { sampleEnv with
    ctorThrows := fun _ serverId _ => if serverId = 1 then some "constructor failed" else none }

/-- A descriptor whose colour field is the empty string. -/
def blankColor : Descriptor := ⟨some alphaName, some "", []⟩

/-- A cycle in which the server answers with that one descriptor. -/
def blankInput : CycleInput :=
  ⟨.response true "OK" (.ok (.list [blankColor])), .err "unused", 1⟩

/-! ## The hash -/

theorem toInt32_modEq (x : Int) : toInt32 x ≡ x [ZMOD 4294967296] := by
  unfold toInt32
  have h : (x + 2147483648) % 4294967296 ≡ x + 2147483648 [ZMOD 4294967296] :=
    Int.mod_modEq _ _
  calc (x + 2147483648) % 4294967296 - 2147483648
      ≡ (x + 2147483648) - 2147483648 [ZMOD 4294967296] := h.sub_right _
    _ = x := by ring

theorem toInt32_range (x : Int) : -2147483648 ≤ toInt32 x ∧ toInt32 x ≤ 2147483647 := by
  unfold toInt32
  have h1 := Int.emod_nonneg (x + 2147483648) (by norm_num : (4294967296 : Int) ≠ 0)
  have h2 := Int.emod_lt_of_pos (x + 2147483648) (by norm_num : (0 : Int) < 4294967296)
  constructor <;> omega

theorem toInt32_congr {x y : Int} (h : x ≡ y [ZMOD 4294967296]) : toInt32 x = toInt32 y := by
  unfold toInt32
  have : (x + 2147483648) % 4294967296 = (y + 2147483648) % 4294967296 := h.add_right _
  rw [this]

theorem hashStep_modEq (h : Int) (c : Nat) :
    hashStep h c ≡ (c : Int) + 31 * h [ZMOD 4294967296] := by
  unfold hashStep shiftLeft5
  have h1 : toInt32 (toInt32 h * 32) ≡ h * 32 [ZMOD 4294967296] :=
    (toInt32_modEq _).trans ((toInt32_modEq h).mul_right 32)
  calc (c : Int) + (toInt32 (toInt32 h * 32) - h)
      ≡ (c : Int) + (h * 32 - h) [ZMOD 4294967296] := (h1.sub_right h).add_left _
    _ = (c : Int) + 31 * h := by ring

theorem nameHash_modEq (name : List Nat) :
    nameHash name ≡ polySum name [ZMOD 4294967296] := by
  induction name with
  | nil => exact Int.ModEq.refl _
  | cons c rest ih =>
    show hashStep (nameHash rest) c ≡ (c : Int) + 31 * polySum rest [ZMOD 4294967296]
    exact (hashStep_modEq _ c).trans ((ih.mul_left 31).add_left _)

/-- The Horner form `polySum` is the sum of `charCode(i) * 31 ^ i`, with `i`
counted from the first code unit. -/
theorem polySum_eq_sum (name : List Nat) :
    polySum name = ∑ i in Finset.range name.length, (name.getD i 0 : Int) * 31 ^ i := by
  induction name with
  | nil => simp [polySum]
  | cons c rest ih =>
    rw [polySum, ih, List.length_cons, Finset.sum_range_succ', Finset.mul_sum]
    simp only [List.getD_cons_succ, List.getD_cons_zero, pow_zero, mul_one]
    rw [add_comm]
    congr 1
    apply Finset.sum_congr rfl
    intro i _
    ring

/-- The hash of a name of `n` code units, each below `65536`, is at most
`n * (2 ^ 31 + 2 ^ 16)` in absolute value: below `2 ^ 53` whenever
`n < 2 ^ 21`, so that double-precision arithmetic is exact on it. -/
theorem nameHash_bound (name : List Nat) (h : ∀ c ∈ name, c < 65536) :
    |nameHash name| ≤ (name.length : Int) * 2147549184 := by
  induction name with
  | nil => simp [nameHash]
  | cons c rest ih =>
    have hc : c < 65536 := h c (List.mem_cons_self _ _)
    have ih1 := ih (fun d hd => h d (List.mem_cons_of_mem _ hd))
    have hr := toInt32_range (toInt32 (nameHash rest) * 32)
    show |hashStep (nameHash rest) c| ≤ _
    unfold hashStep shiftLeft5
    rw [abs_le] at ih1 ⊢
    rw [List.length_cons]
    push_cast
    constructor <;> omega

/-! ## The colour value -/

theorem jsRem_one_abs {α : Type} [LinearOrderedField α] [FloorRing α] (x : α) :
    |jsRem x 1| = Int.fract |x| := by
  unfold jsRem jsTrunc
  rw [div_one, one_mul]
  split_ifs with h
  · rw [abs_of_nonneg h]
    change |Int.fract x| = Int.fract x
    exact abs_of_nonneg (Int.fract_nonneg x)
  · push_neg at h
    rw [abs_of_neg h]
    have hc : (⌈x⌉ : α) = -(⌊-x⌋ : α) := by
      rw [Int.floor_neg]; push_cast; ring
    rw [hc]
    have : x - -(⌊-x⌋ : α) = -(Int.fract (-x)) := by
      unfold Int.fract; ring
    rw [this, abs_neg]
    exact abs_of_nonneg (Int.fract_nonneg _)

theorem colorValue_eq_fract {α : Type} [LinearOrderedField α] [FloorRing α] (s : α) :
    colorValue s = ⌊Int.fract |s * 10000| * 16777216⌋ := by
  unfold colorValue
  rw [abs_mul, jsRem_one_abs, abs_of_pos (by norm_num : (0 : α) < 16777216)]

theorem colorValue_range {α : Type} [LinearOrderedField α] [FloorRing α] (s : α) :
    0 ≤ colorValue s ∧ colorValue s < 16777216 := by
  rw [colorValue_eq_fract]
  constructor
  · apply Int.floor_nonneg.mpr
    exact mul_nonneg (Int.fract_nonneg _) (by norm_num)
  · rw [Int.floor_lt]
    have := Int.fract_lt_one (|s * 10000|)
    push_cast
    linarith

/-! ## Hexadecimal rendering -/

theorem digitChar_isHex (d : Nat) (h : d < 16) : isHexDigit (Nat.digitChar d) = true := by
  interval_cases d <;> decide

theorem toDigitsCore_hex : ∀ (fuel n : Nat) (ds : List Char),
    (∀ c ∈ ds, isHexDigit c = true) →
    ∀ c ∈ Nat.toDigitsCore 16 fuel n ds, isHexDigit c = true := by
  intro fuel
  induction fuel with
  | zero => intro n ds h; simpa [Nat.toDigitsCore] using h
  | succ fuel ih =>
    intro n ds h
    have hd : isHexDigit (Nat.digitChar (n % 16)) = true :=
      digitChar_isHex _ (Nat.mod_lt _ (by norm_num))
    have hds : ∀ c ∈ Nat.digitChar (n % 16) :: ds, isHexDigit c = true := by
      intro c hc
      rcases List.mem_cons.mp hc with rfl | hc
      · exact hd
      · exact h c hc
    unfold Nat.toDigitsCore
    simp only
    split_ifs
    · exact hds
    · exact ih _ _ hds

theorem toDigitsCore_length : ∀ (k fuel n : Nat) (ds : List Char),
    n < fuel → n < 16 ^ (k + 1) →
    ds.length + 1 ≤ (Nat.toDigitsCore 16 fuel n ds).length ∧
    (Nat.toDigitsCore 16 fuel n ds).length ≤ ds.length + (k + 1) := by
  intro k
  induction k with
  | zero =>
    intro fuel n ds hf hn
    cases fuel with
    | zero => omega
    | succ fuel =>
      unfold Nat.toDigitsCore
      have : n / 16 = 0 := by omega
      simp [this]
  | succ k ih =>
    intro fuel n ds hf hn
    cases fuel with
    | zero => omega
    | succ fuel =>
      unfold Nat.toDigitsCore
      simp only
      split_ifs with h0
      · simp
      · have h1 : n / 16 < fuel := by omega
        have h2 : n / 16 < 16 ^ (k + 1) := by
          rw [Nat.div_lt_iff_lt_mul (by norm_num)]
          calc n < 16 ^ (k + 1 + 1) := hn
            _ = 16 ^ (k + 1) * 16 := by ring
        have := ih fuel (n / 16) (Nat.digitChar (n % 16) :: ds) h1 h2
        simp only [List.length_cons] at this
        omega

theorem toStringHex_length (v : Int) (h0 : 0 ≤ v) (h1 : v < 16777216) :
    1 ≤ (toStringHex v).length ∧ (toStringHex v).length ≤ 6 := by
  unfold toStringHex
  rw [if_neg (by omega)]
  have := toDigitsCore_length 5 (v.toNat + 1) v.toNat [] (by omega) (by norm_num; omega)
  simpa [Nat.toDigits] using this

theorem toStringHex_hex (v : Int) (h0 : 0 ≤ v) :
    ∀ c ∈ toStringHex v, isHexDigit c = true := by
  unfold toStringHex
  rw [if_neg (by omega)]
  exact toDigitsCore_hex _ _ [] (by simp)

theorem zeroPadding_of_le (len : Nat) (h : len ≤ 6) :
    zeroPadding len = .ok (List.replicate (6 - len) '0') := by
  unfold zeroPadding
  simp only
  rw [if_neg (by omega)]
  congr 2
  omega

theorem colorDigits_length (sin : Int → ℚ) (name : List Nat) :
    1 ≤ (colorDigits sin name).length ∧ (colorDigits sin name).length ≤ 6 :=
  toStringHex_length _ (colorValue_range _).1 (colorValue_range _).2

theorem deriveColor_ok (sin : Int → ℚ) (name : List Nat) :
    deriveColor sin name =
      .ok (String.mk ('#' :: (List.replicate (6 - (colorDigits sin name).length) '0'
        ++ colorDigits sin name))) := by
  unfold deriveColor
  rw [zeroPadding_of_le _ (colorDigits_length sin name).2]

/-! ## The loop over the loaded list -/

theorem constructions_append (a b : List Event) :
    constructions (a ++ b) = constructions a ++ constructions b := by
  simp [constructions, List.filterMap_append]

theorem backfillColor_calls (env : Env) (d : Descriptor) :
    (backfillColor env d).1 = [] ∨ ∃ h, (backfillColor env d).1 = [.mathSin h] := by
  unfold backfillColor
  split_ifs
  · cases d.name with
    | none => exact Or.inl rfl
    | some name =>
      right
      refine ⟨nameHash name, ?_⟩
      simp only
      cases deriveColor env.sin name <;> rfl
  · exact Or.inl rfl

theorem constructions_backfillColor (env : Env) (d : Descriptor) :
    constructions (backfillColor env d).1 = [] := by
  rcases backfillColor_calls env d with h | ⟨_, h⟩ <;> rw [h] <;> rfl

theorem forEachServer_nil (env : Env) (k : Nat) (s : LoopState) :
    forEachServer env [] k s = (s, none) := rfl

theorem forEachServer_cons_error (env : Env) (d : Descriptor) (rest : List Descriptor)
    (k : Nat) (s : LoopState) (e : String)
    (h : (backfillColor env d).2 = .error e) :
    forEachServer env (d :: rest) k s =
      ({ s with trace := s.trace ++ (backfillColor env d).1 }, some e) := by
  rw [forEachServer]
  rcases hb : backfillColor env d with ⟨calls, res⟩
  rw [hb] at h
  subst h
  rfl

theorem forEachServer_cons_throw (env : Env) (d d1 : Descriptor) (rest : List Descriptor)
    (k : Nat) (s : LoopState) (e : String)
    (h : (backfillColor env d).2 = .ok d1)
    (hc : env.ctorThrows s.registrations k d1 = some e) :
    forEachServer env (d :: rest) k s =
      ({ registrations := s.registrations
         nextObjectId := s.nextObjectId + 1
         trace := s.trace ++ (backfillColor env d).1 ++ [.construct s.registrations k d1] },
        some e) := by
  rw [forEachServer]
  rcases hb : backfillColor env d with ⟨calls, res⟩
  rw [hb] at h
  subst h
  simp only [hc]

theorem forEachServer_cons_ok (env : Env) (d d1 : Descriptor) (rest : List Descriptor)
    (k : Nat) (s : LoopState)
    (h : (backfillColor env d).2 = .ok d1)
    (hc : env.ctorThrows s.registrations k d1 = none) :
    forEachServer env (d :: rest) k s =
      forEachServer env rest (k + 1)
        { registrations := s.registrations ++ [⟨s.nextObjectId, k, d1⟩]
          nextObjectId := s.nextObjectId + 1
          trace := s.trace ++ (backfillColor env d).1 ++ [.construct s.registrations k d1] } := by
  rw [forEachServer]
  rcases hb : backfillColor env d with ⟨calls, res⟩
  rw [hb] at h
  subst h
  simp only [hc]

theorem constructions_construct (seen : List Registration) (i : Nat) (d : Descriptor) :
    constructions [.construct seen i d] = [(seen, i, d)] := rfl

theorem backfillColor_calls_kind (env : Env) (d : Descriptor) :
    ∀ e ∈ (backfillColor env d).1,
      (∃ h, e = Event.mathSin h) ∨ ∃ seen i d, e = Event.construct seen i d := by
  intro e he
  rcases backfillColor_calls env d with h | ⟨x, h⟩
  · rw [h] at he; simp at he
  · rw [h] at he
    simp only [List.mem_singleton] at he
    exact Or.inl ⟨x, he⟩

theorem forEachServer_adds (env : Env) : ∀ (ds : List Descriptor) (k : Nat) (s : LoopState),
    s.registrations.length = k →
    ∃ regs calls, LoopAdds env ds k s (forEachServer env ds k s).1 regs calls := by
  intro ds
  induction ds with
  | nil =>
    intro k s _
    refine ⟨[], [], ?_⟩
    constructor <;> simp [forEachServer_nil, constructions]
  | cons d rest ih =>
    intro k s hk
    rcases hb : (backfillColor env d).2 with e | d1
    · rw [forEachServer_cons_error env d rest k s e hb]
      refine ⟨[], (backfillColor env d).1, ?_⟩
      constructor
      · simp
      · rfl
      · exact le_refl _
      · simp
      · exact backfillColor_calls_kind env d
      · simp [constructions_backfillColor]
      · exact ⟨[], by simp [constructions_backfillColor]⟩
    · cases hc : env.ctorThrows s.registrations k d1 with
      | some e =>
        rw [forEachServer_cons_throw env d d1 rest k s e hb hc]
        refine ⟨[], (backfillColor env d).1 ++ [.construct s.registrations k d1], ?_⟩
        constructor
        · simp
        · simp
        · exact Nat.le_succ _
        · simp
        · intro e he
          rcases List.mem_append.mp he with h | h
          · exact backfillColor_calls_kind env d e h
          · simp only [List.mem_singleton] at h
            exact Or.inr ⟨_, _, _, h⟩
        · intro x hx
          rw [constructions_append, constructions_backfillColor, constructions_construct] at hx
          simp only [List.nil_append, List.mem_singleton] at hx
          subst hx
          refine ⟨?_, hk, d, ?_, le_refl _, hb⟩
          · simp [← hk]
          · simp
        · refine ⟨[(k, d1)], ?_⟩
          rw [constructions_append, constructions_backfillColor, constructions_construct]
          rfl
      | none =>
        rw [forEachServer_cons_ok env d d1 rest k s hb hc]
        obtain ⟨regs, calls, h⟩ := ih (k + 1)
          { registrations := s.registrations ++ [⟨s.nextObjectId, k, d1⟩]
            nextObjectId := s.nextObjectId + 1
            trace := s.trace ++ (backfillColor env d).1 ++ [.construct s.registrations k d1] }
          (by simp [hk])
        refine ⟨⟨s.nextObjectId, k, d1⟩ :: regs,
          (backfillColor env d).1 ++ [.construct s.registrations k d1] ++ calls, ?_⟩
        have h1 := h.registrations_eq
        have h2 := h.trace_eq
        have h3 := h.next_le
        have h4 := h.fresh
        have h5 := h.calls_kind
        have h6 := h.seen_eq
        obtain ⟨tail, h7⟩ := h.pairs_eq
        simp only at h1 h2 h3 h4 h6
        constructor
        · rw [h1]; simp
        · rw [h2]; simp
        · omega
        · intro r hr
          rcases List.mem_cons.mp hr with rfl | hr
          · simp only [le_refl, true_and]; omega
          · have := h4 r hr
            omega
        · intro e he
          rcases List.mem_append.mp he with h | h
          · rcases List.mem_append.mp h with h | h
            · exact backfillColor_calls_kind env d e h
            · simp only [List.mem_singleton] at h
              exact Or.inr ⟨_, _, _, h⟩
          · exact h5 e h
        · intro x hx
          rw [constructions_append, constructions_append, constructions_backfillColor,
            constructions_construct] at hx
          simp only [List.nil_append, List.singleton_append, List.mem_cons] at hx
          rcases hx with rfl | hx
          · refine ⟨?_, hk, d, ?_, le_refl _, hb⟩
            · simp [← hk]
            · simp
          · obtain ⟨a, b, d0, hd0, hle, hbf⟩ := h6 x hx
            refine ⟨?_, b, d0, ?_, by omega, hbf⟩
            · rw [a]; simp
            · have : x.2.1 - k = (x.2.1 - (k + 1)) + 1 := by omega
              rw [this, List.getElem?_cons_succ]
              exact hd0
        · refine ⟨tail, ?_⟩
          rw [constructions_append, constructions_append, constructions_backfillColor,
            constructions_construct]
          simp only [List.nil_append, List.singleton_append, List.map_cons, List.cons_append]
          rw [h7]

theorem backfilled_of_ok (env : Env) (d d1 : Descriptor) (h : (backfillColor env d).2 = .ok d1) :
    backfilled env d = d1 := by
  unfold backfilled
  rw [h]

theorem forEachServer_succeeds (env : Env)
    (hctor : ∀ seen i d, env.ctorThrows seen i d = none) :
    ∀ (ds : List Descriptor) (k : Nat) (s : LoopState),
    (∀ d ∈ ds, ∃ d1, (backfillColor env d).2 = .ok d1) →
    s.registrations.length = k →
    (forEachServer env ds k s).2 = none ∧
    (forEachServer env ds k s).1.nextObjectId = s.nextObjectId + ds.length ∧
    (forEachServer env ds k s).1.registrations =
      s.registrations ++ ds.mapIdx (fun i d => ⟨s.nextObjectId + i, k + i, backfilled env d⟩) ∧
    constructions (forEachServer env ds k s).1.trace =
      constructions s.trace ++ ds.mapIdx (fun i d =>
        ((forEachServer env ds k s).1.registrations.take (k + i), k + i, backfilled env d)) := by
  intro ds
  induction ds with
  | nil => intro k s _ _; simp [forEachServer_nil]
  | cons d rest ih =>
    intro k s hds hk
    obtain ⟨d1, hb⟩ := hds d (List.mem_cons_self _ _)
    rw [forEachServer_cons_ok env d d1 rest k s hb (hctor _ _ _)]
    obtain ⟨h1, h2, h3, h4⟩ := ih (k + 1)
      { registrations := s.registrations ++ [⟨s.nextObjectId, k, d1⟩]
        nextObjectId := s.nextObjectId + 1
        trace := s.trace ++ (backfillColor env d).1 ++ [.construct s.registrations k d1] }
      (fun x hx => hds x (List.mem_cons_of_mem _ hx)) (by simp [hk])
    simp only at h2 h3 h4
    have e1 : ∀ i : Nat, s.nextObjectId + 1 + i = s.nextObjectId + (i + 1) := by intro i; omega
    have e2 : ∀ i : Nat, k + 1 + i = k + (i + 1) := by intro i; omega
    have h3n := h3
    simp only [List.append_assoc] at h3n
    refine ⟨h1, ?_, ?_, ?_⟩
    · rw [h2, List.length_cons]; omega
    · rw [h3, List.mapIdx_cons, backfilled_of_ok env d d1 hb]
      simp only [e1, e2, List.append_assoc, List.singleton_append, Nat.add_zero]
    · rw [h4, List.mapIdx_cons, backfilled_of_ok env d d1 hb, constructions_append,
        constructions_append, constructions_backfillColor, constructions_construct]
      simp only [e2, List.append_assoc, List.singleton_append, Nat.add_zero, List.nil_append,
        List.append_cancel_left_eq, List.cons.injEq, Prod.mk.injEq, and_true, true_and]
      rw [h3n, List.take_left' hk]

/-- A run of the loop that ends with an error: the position `m` at which it
failed, what the registry holds then, and the constructor calls made. -/
theorem forEachServer_fails (env : Env) :
    ∀ (ds : List Descriptor) (k : Nat) (s : LoopState) (msg : String),
    s.registrations.length = k →
    (forEachServer env ds k s).2 = some msg →
    ∃ m, m < ds.length ∧
      (∀ d ∈ ds.take m, (backfillColor env d).2 = .ok (backfilled env d)) ∧
      (∀ i d, (ds.take m)[i]? = some d →
        env.ctorThrows ((forEachServer env ds k s).1.registrations.take (k + i)) (k + i)
          (backfilled env d) = none) ∧
      (forEachServer env ds k s).1.registrations =
        s.registrations ++
          (ds.take m).mapIdx (fun i d => ⟨s.nextObjectId + i, k + i, backfilled env d⟩) ∧
      ((∃ d, ds[m]? = some d ∧ (backfillColor env d).2 = .error msg ∧
          constructions (forEachServer env ds k s).1.trace =
            constructions s.trace ++ (ds.take m).mapIdx (fun i d =>
              ((forEachServer env ds k s).1.registrations.take (k + i), k + i,
                backfilled env d))) ∨
        (∃ d d1, ds[m]? = some d ∧ (backfillColor env d).2 = .ok d1 ∧
          env.ctorThrows (forEachServer env ds k s).1.registrations (k + m) d1 = some msg ∧
          constructions (forEachServer env ds k s).1.trace =
            constructions s.trace ++ (ds.take m).mapIdx (fun i d =>
              ((forEachServer env ds k s).1.registrations.take (k + i), k + i,
                backfilled env d)) ++
              [((forEachServer env ds k s).1.registrations, k + m, d1)])) := by
  intro ds
  induction ds with
  | nil => intro k s msg _ h; simp [forEachServer_nil] at h
  | cons d rest ih =>
    intro k s msg hk h
    rcases hb : (backfillColor env d).2 with e | d1
    · rw [forEachServer_cons_error env d rest k s e hb] at h ⊢
      simp only [Option.some.injEq] at h
      subst h
      refine ⟨0, by simp, by simp, by simp, by simp, Or.inl ⟨d, by simp, hb, ?_⟩⟩
      simp [constructions_append, constructions_backfillColor]
    · cases hc : env.ctorThrows s.registrations k d1 with
      | some e =>
        rw [forEachServer_cons_throw env d d1 rest k s e hb hc] at h ⊢
        simp only [Option.some.injEq] at h
        subst h
        refine ⟨0, by simp, by simp, by simp, by simp, Or.inr ⟨d, d1, by simp, hb, hc, ?_⟩⟩
        simp [constructions_append, constructions_backfillColor, constructions_construct]
      | none =>
        rw [forEachServer_cons_ok env d d1 rest k s hb hc] at h ⊢
        obtain ⟨m, hm, hok, hnot, hregs, hcase⟩ := ih (k + 1) _ msg (by simp [hk]) h
        simp only at hregs hcase
        generalize forEachServer env rest (k + 1)
          { registrations := s.registrations ++ [⟨s.nextObjectId, k, d1⟩]
            nextObjectId := s.nextObjectId + 1
            trace := s.trace ++ (backfillColor env d).1 ++ [.construct s.registrations k d1] }
          = F at hnot hregs hcase ⊢
        have hbd := backfilled_of_ok env d d1 hb
        have e1 : ∀ i : Nat, s.nextObjectId + 1 + i = s.nextObjectId + (i + 1) := by
          intro i; omega
        have e2 : ∀ i : Nat, k + 1 + i = k + (i + 1) := by intro i; omega
        have hregs1 : F.1.registrations = s.registrations ++
            ((d :: rest).take (m + 1)).mapIdx
              (fun i d => ⟨s.nextObjectId + i, k + i, backfilled env d⟩) := by
          rw [hregs, List.take_succ_cons, List.mapIdx_cons, hbd]
          simp only [e1, e2, List.append_assoc, List.singleton_append, Nat.add_zero]
        have htake : F.1.registrations.take k = s.registrations := by
          rw [hregs1, List.take_left' hk]
        have hcons : ∀ tail, constructions (s.trace ++ (backfillColor env d).1 ++
              [.construct s.registrations k d1]) ++
            (rest.take m).mapIdx (fun i d =>
              (F.1.registrations.take (k + 1 + i), k + 1 + i, backfilled env d)) ++ tail =
            constructions s.trace ++ ((d :: rest).take (m + 1)).mapIdx (fun i d =>
              (F.1.registrations.take (k + i), k + i, backfilled env d)) ++ tail := by
          intro tail
          rw [List.take_succ_cons, List.mapIdx_cons, hbd, constructions_append,
            constructions_append, constructions_backfillColor, constructions_construct]
          simp only [e2, Nat.add_zero, htake, List.append_assoc, List.singleton_append,
            List.nil_append, List.cons_append]
        refine ⟨m + 1, by simp; omega, ?_, ?_, hregs1, ?_⟩
        · intro x hx
          rw [List.take_succ_cons] at hx
          rcases List.mem_cons.mp hx with rfl | hx
          · rw [hb, hbd]
          · exact hok x hx
        · intro i x hx
          rw [List.take_succ_cons] at hx
          cases i with
          | zero =>
            simp only [List.getElem?_cons_zero, Option.some.injEq] at hx
            subst hx
            rw [Nat.add_zero, htake, hbd]
            exact hc
          | succ i =>
            rw [List.getElem?_cons_succ] at hx
            have := hnot i x hx
            rw [e2] at this
            exact this
        · rcases hcase with ⟨x, hx1, hx2, hx3⟩ | ⟨x, x1, hx1, hx2, hx3, hx4⟩
          · refine Or.inl ⟨x, by simpa using hx1, hx2, ?_⟩
            rw [hx3]
            have := hcons []
            simpa using this
          · refine Or.inr ⟨x, x1, by simpa using hx1, hx2, ?_, ?_⟩
            · rw [← hx3]; congr 1; omega
            · rw [hx4, hcons]
              congr 2
              simp only [List.cons.injEq, Prod.mk.injEq, and_true, true_and]
              omega

/-! ## One cycle -/

theorem initializeApp_cases (env : Env) (input : CycleInput) (st : AppState) :
    (∃ msg, loadServers env input st = .error msg ∧
      initializeApp env input st = ⟨st, catchHandler msg, .failedLoading⟩) ∨
    (loadServers env input st = .ok .notList ∧
      initializeApp env input st =
        ⟨{ st with serverRegistrations := [] },
          [loadingLine st] ++ catchHandler "servers.forEach is not a function",
          .failedEnriching⟩) ∨
    (∃ ds msg, loadServers env input st = .ok (.list ds) ∧
      (forEachServer env ds 0 (loopStart st)).2 = some msg ∧
      initializeApp env input st =
        ⟨{ st with
            serverRegistrations := (forEachServer env ds 0 (loopStart st)).1.registrations
            nextObjectId := (forEachServer env ds 0 (loopStart st)).1.nextObjectId },
          (forEachServer env ds 0 (loopStart st)).1.trace ++ catchHandler msg,
          .failedEnriching⟩) ∨
    (∃ ds, loadServers env input st = .ok (.list ds) ∧
      (forEachServer env ds 0 (loopStart st)).2 = none ∧
      initializeApp env input st =
        ⟨{ serverRegistrations := (forEachServer env ds 0 (loopStart st)).1.registrations
           config := (applyGraphDurationDefault st.config).1
           nextObjectId := (forEachServer env ds 0 (loopStart st)).1.nextObjectId },
          (forEachServer env ds 0 (loopStart st)).1.trace ++ (applyGraphDurationDefault st.config).2
            ++ signalReady (applyGraphDurationDefault st.config).1 input.databaseCallbackRuns,
          .ready⟩) := by
  rcases hl : loadServers env input st with msg | loaded
  · exact Or.inl ⟨msg, rfl, by simp only [initializeApp, hl]⟩
  · cases loaded with
    | notList => exact Or.inr (Or.inl ⟨rfl, by simp only [initializeApp, hl, loadingLine]⟩)
    | list ds =>
      have hs : loopStart st = ⟨[], st.nextObjectId,
          [.log .info ("Loading servers from " ++ sourceLabel st.config.serversUrl)]⟩ := rfl
      rcases hf : forEachServer env ds 0 (loopStart st) with ⟨f, err⟩
      have hf1 := hf
      rw [hs] at hf1
      cases err with
      | some msg =>
        exact Or.inr (Or.inr (Or.inl ⟨ds, msg, rfl, by rw [hf],
          by simp only [initializeApp, hl, hf1, hf]⟩))
      | none =>
        exact Or.inr (Or.inr (Or.inr ⟨ds, rfl, by rw [hf],
          by simp only [initializeApp, hl, hf1, hf]⟩))

theorem graphDurationWarning_ne : graphDurationWarning ≠ databaseWarning := by decide

theorem count_calls_of_kind (calls : List Event)
    (h : ∀ e ∈ calls, (∃ x, e = Event.mathSin x) ∨ ∃ seen i d, e = Event.construct seen i d) :
    readyCount calls = 0 ∧ loadDatabaseCount calls = 0 ∧ errorCount calls = 0 ∧
    graphDurationWarnings calls = 0 := by
  refine ⟨?_, ?_, ?_, ?_⟩
  · apply List.count_eq_zero.mpr
    intro hm
    rcases h _ hm with ⟨_, h⟩ | ⟨_, _, _, h⟩ <;> cases h
  · apply List.count_eq_zero.mpr
    intro hm
    rcases h _ hm with ⟨_, h⟩ | ⟨_, _, _, h⟩ <;> cases h
  · unfold errorCount
    rw [List.countP_eq_zero]
    intro e hm
    rcases h _ hm with ⟨_, h⟩ | ⟨_, _, _, h⟩ <;> subst h <;> simp
  · apply List.count_eq_zero.mpr
    intro hm
    rcases h _ hm with ⟨_, h⟩ | ⟨_, _, _, h⟩ <;> cases h

theorem readyCount_append (a b : List Event) :
    readyCount (a ++ b) = readyCount a + readyCount b := List.count_append _ _ _

theorem loadDatabaseCount_append (a b : List Event) :
    loadDatabaseCount (a ++ b) = loadDatabaseCount a + loadDatabaseCount b :=
  List.count_append _ _ _

theorem errorCount_append (a b : List Event) :
    errorCount (a ++ b) = errorCount a + errorCount b := List.countP_append _ _ _

theorem graphDurationWarnings_append (a b : List Event) :
    graphDurationWarnings (a ++ b) = graphDurationWarnings a + graphDurationWarnings b :=
  List.count_append _ _ _

/-- The calls of the loop started by a cycle contain one diagnostic, the
`info` line, and no readiness or database call. -/
theorem loop_trace_counts (env : Env) (ds : List Descriptor) (st : AppState) :
    readyCount (forEachServer env ds 0 (loopStart st)).1.trace = 0 ∧
    loadDatabaseCount (forEachServer env ds 0 (loopStart st)).1.trace = 0 ∧
    errorCount (forEachServer env ds 0 (loopStart st)).1.trace = 0 ∧
    graphDurationWarnings (forEachServer env ds 0 (loopStart st)).1.trace = 0 := by
  obtain ⟨regs, calls, h⟩ := forEachServer_adds env ds 0 (loopStart st) rfl
  obtain ⟨c1, c2, c3, c4⟩ := count_calls_of_kind calls h.calls_kind
  rw [h.trace_eq, readyCount_append, loadDatabaseCount_append, errorCount_append,
    graphDurationWarnings_append, c1, c2, c3, c4]
  refine ⟨?_, ?_, ?_, ?_⟩ <;> simp [loopStart, loadingLine, readyCount, loadDatabaseCount, errorCount, graphDurationWarnings]

theorem constructions_catchHandler (msg : String) : constructions (catchHandler msg) = [] := rfl

theorem constructions_applyGraphDurationDefault (config : Config) :
    constructions (applyGraphDurationDefault config).2 = [] := by
  unfold applyGraphDurationDefault
  split_ifs <;> rfl

theorem constructions_signalReady (config : Config) (k : Nat) :
    constructions (signalReady config k) = [] := by
  unfold signalReady
  split_ifs
  · rfl
  · induction k with
    | zero => rfl
    | succ k ih =>
      simp only [constructions, List.replicate_succ, List.flatten_cons, List.filterMap_cons,
        List.cons_append, List.nil_append] at ih ⊢
      exact ih

/-- A cycle whose loader yields a list: the state and the trace in terms of
what the loop adds. -/
theorem cycle_on_list (env : Env) (input : CycleInput) (st : AppState) (ds : List Descriptor)
    (hl : loadServers env input st = .ok (.list ds)) :
    ∃ regs calls after,
      LoopAdds env ds 0 (loopStart st) (forEachServer env ds 0 (loopStart st)).1 regs calls ∧
      (initializeApp env input st).state.serverRegistrations = regs ∧
      (initializeApp env input st).state.nextObjectId =
        (forEachServer env ds 0 (loopStart st)).1.nextObjectId ∧
      (initializeApp env input st).trace = loadingLine st :: calls ++ after ∧
      constructions (initializeApp env input st).trace = constructions calls ∧
      ((initializeApp env input st).outcome = .ready ↔
        (forEachServer env ds 0 (loopStart st)).2 = none) := by
  obtain ⟨regs, calls, h⟩ := forEachServer_adds env ds 0 (loopStart st) rfl
  have hr := h.registrations_eq
  have ht := h.trace_eq
  simp only [loopStart, List.nil_append, List.singleton_append] at hr ht
  rcases initializeApp_cases env input st with ⟨msg, h1, _⟩ | ⟨h1, _⟩ | ⟨ds1, msg, h1, h2, h3⟩ |
    ⟨ds1, h1, h2, h3⟩
  · rw [hl] at h1; cases h1
  · rw [hl] at h1; cases h1
  · rw [hl] at h1
    cases h1
    have e : (initializeApp env input st).trace = loadingLine st :: calls ++ catchHandler msg := by
      rw [h3]; simp only; rw [← ht]; rfl
    refine ⟨regs, calls, catchHandler msg, h, ?_, ?_, e, ?_, ?_⟩
    · rw [h3]; exact hr
    · rw [h3]
    · rw [e, ← List.singleton_append, List.append_assoc, constructions_append,
        constructions_append, constructions_catchHandler]
      simp [constructions, loadingLine]
    · rw [h3, h2]; simp
  · rw [hl] at h1
    cases h1
    have e : (initializeApp env input st).trace = loadingLine st :: calls ++
        ((applyGraphDurationDefault st.config).2 ++
          signalReady (applyGraphDurationDefault st.config).1 input.databaseCallbackRuns) := by
      rw [h3]; simp only; rw [← ht]; simp [loopStart]
    refine ⟨regs, calls, _, h, ?_, ?_, e, ?_, ?_⟩
    · rw [h3]; exact hr
    · rw [h3]
    · rw [e, ← List.singleton_append, List.append_assoc, constructions_append,
        constructions_append, constructions_append, constructions_applyGraphDurationDefault,
        constructions_signalReady]
      simp [constructions, loadingLine]
    · rw [h3, h2]; simp

theorem forEachServer_none_length (env : Env) : ∀ (ds : List Descriptor) (k : Nat) (s : LoopState),
    (forEachServer env ds k s).2 = none →
    (forEachServer env ds k s).1.registrations.length = s.registrations.length + ds.length ∧
    (constructions (forEachServer env ds k s).1.trace).length =
      (constructions s.trace).length + ds.length := by
  intro ds
  induction ds with
  | nil => intro k s _; simp [forEachServer_nil]
  | cons d rest ih =>
    intro k s h
    rcases hb : (backfillColor env d).2 with e | d1
    · rw [forEachServer_cons_error env d rest k s e hb] at h; cases h
    · cases hc : env.ctorThrows s.registrations k d1 with
      | some e => rw [forEachServer_cons_throw env d d1 rest k s e hb hc] at h; cases h
      | none =>
        rw [forEachServer_cons_ok env d d1 rest k s hb hc] at h ⊢
        obtain ⟨i1, i2⟩ := ih _ _ h
        rw [i1, i2]
        simp only [constructions_append, constructions_backfillColor, constructions_construct,
          List.length_append, List.length_cons, List.length_nil]
        omega

theorem backfillColor_keeps (env : Env) (server : Descriptor)
    (h : truthyString server.color = true) : backfillColor env server = ([], .ok server) := by
  unfold backfillColor
  rw [h]
  rfl

theorem backfillColor_derives (env : Env) (server : Descriptor) (name : List Nat)
    (h : truthyString server.color = false) (hn : server.name = some name) :
    ∃ c, deriveColor env.sin name = .ok c ∧
      backfillColor env server = ([.mathSin (nameHash name)], .ok { server with color := some c }) := by
  refine ⟨_, deriveColor_ok env.sin name, ?_⟩
  unfold backfillColor
  rw [h, hn]
  simp only [Bool.not_false, if_true]
  rw [deriveColor_ok]

theorem backfillColor_ok_of_name (env : Env) (server : Descriptor) (h : server.name ≠ none) :
    ∃ d1, (backfillColor env server).2 = .ok d1 := by
  cases hc : truthyString server.color with
  | true => exact ⟨server, by rw [backfillColor_keeps env server hc]⟩
  | false =>
    cases hn : server.name with
    | none => exact absurd hn h
    | some name =>
      obtain ⟨c, _, h2⟩ := backfillColor_derives env server name hc hn
      exact ⟨_, by rw [h2]⟩

theorem remoteState_wellFormed : remoteState.WellFormed := by
  intro r hr
  simp only [remoteState, List.mem_singleton] at hr
  subst hr
  decide

/-- Well-formedness of the state is kept by every cycle. -/
theorem initializeApp_wellFormed (env : Env) (input : CycleInput) (st : AppState)
    (hwf : st.WellFormed) : (initializeApp env input st).state.WellFormed := by
  rcases initializeApp_cases env input st with ⟨msg, _, h3⟩ | ⟨_, h3⟩ | ⟨ds, msg, _, _, h3⟩ |
    ⟨ds, _, _, h3⟩
  · rw [h3]; exact hwf
  · rw [h3]; intro r hr; simp at hr
  · obtain ⟨regs, calls, h⟩ := forEachServer_adds env ds 0 (loopStart st) rfl
    have hr : (forEachServer env ds 0 (loopStart st)).1.registrations = regs :=
      h.registrations_eq
    rw [h3]
    intro r hmem
    exact (h.fresh r (by simpa [hr] using hmem)).2
  · obtain ⟨regs, calls, h⟩ := forEachServer_adds env ds 0 (loopStart st) rfl
    have hr : (forEachServer env ds 0 (loopStart st)).1.registrations = regs :=
      h.registrations_eq
    rw [h3]
    intro r hmem
    exact (h.fresh r (by simpa [hr] using hmem)).2

/-- The calls and the state of a cycle that ends in a failed state. -/
theorem failed_cycle_summary (env : Env) (input : CycleInput) (st : AppState)
    (hfail : (initializeApp env input st).outcome ≠ .ready) :
    (∃ before msg,
      (initializeApp env input st).trace =
        before ++ [.log .error ("Failed to load servers: " ++ msg)] ∧
      errorCount before = 0) ∧
    errorCount (initializeApp env input st).trace = 1 ∧
    readyCount (initializeApp env input st).trace = 0 ∧
    loadDatabaseCount (initializeApp env input st).trace = 0 ∧
    (initializeApp env input st).state.config = st.config ∧
    ((initializeApp env input st).outcome = .failedLoading →
      (initializeApp env input st).state = st) ∧
    ((initializeApp env input st).outcome = .failedEnriching →
      (∀ x ∈ (initializeApp env input st).state.serverRegistrations,
        st.nextObjectId ≤ x.objectId) ∧
      (st.WellFormed → ∀ x ∈ (initializeApp env input st).state.serverRegistrations,
        x ∉ st.serverRegistrations) ∧
      (∃ tail, (constructions (initializeApp env input st).trace).map (fun c => (c.2.1, c.2.2)) =
        (initializeApp env input st).state.serverRegistrations.map
          (fun x => (x.serverId, x.data)) ++ tail) ∧
      (loadServers env input st = .ok .notList →
        (initializeApp env input st).state.serverRegistrations = [])) := by
  rcases initializeApp_cases env input st with ⟨msg, _, h3⟩ | ⟨_, h3⟩ | ⟨ds, msg, h1, _, h3⟩ |
    ⟨ds, _, _, h3⟩
  · rw [h3]
    refine ⟨⟨[], msg, rfl, rfl⟩, ?_, ?_, ?_, rfl, fun _ => rfl, fun h => by simp at h⟩ <;>
      simp [catchHandler, errorCount, readyCount, loadDatabaseCount]
  · rw [h3]
    refine ⟨⟨[loadingLine st], _, rfl, ?_⟩, ?_, ?_, ?_, rfl, fun h => by simp at h, fun _ => ?_⟩
    · simp [loadingLine, errorCount]
    · simp [catchHandler, loadingLine, errorCount]
    · simp [catchHandler, loadingLine, readyCount]
    · simp [catchHandler, loadingLine, loadDatabaseCount]
    · refine ⟨?_, ?_, ⟨[], rfl⟩, fun _ => rfl⟩ <;> simp
  · obtain ⟨regs, calls, h⟩ := forEachServer_adds env ds 0 (loopStart st) rfl
    obtain ⟨c1, c2, c3, _⟩ := loop_trace_counts env ds st
    have hr : (forEachServer env ds 0 (loopStart st)).1.registrations = regs :=
      h.registrations_eq
    have ht := h.trace_eq
    have hfresh : ∀ r ∈ regs, st.nextObjectId ≤ r.objectId ∧
        r.objectId < (forEachServer env ds 0 (loopStart st)).1.nextObjectId := h.fresh
    obtain ⟨tail, hp⟩ := h.pairs_eq
    have hnew : ∀ x ∈ (forEachServer env ds 0 (loopStart st)).1.registrations,
        st.nextObjectId ≤ x.objectId := by
      intro x hx
      rw [hr] at hx
      exact (hfresh x hx).1
    rw [h3]
    refine ⟨⟨_, msg, rfl, c3⟩, ?_, ?_, ?_, rfl, fun h => by simp at h, fun _ => ⟨hnew, ?_, ?_, ?_⟩⟩
    · rw [errorCount_append, c3]; simp [catchHandler, errorCount]
    · rw [readyCount_append, c1]; simp [catchHandler, readyCount]
    · rw [loadDatabaseCount_append, c2]; simp [catchHandler, loadDatabaseCount]
    · intro hwf x hx hmem
      have := hwf x hmem
      have := hnew x hx
      omega
    · refine ⟨tail, ?_⟩
      simp only
      have hc : constructions (loopStart st).trace = [] := rfl
      rw [constructions_append, constructions_catchHandler, List.append_nil, ht,
        constructions_append, hc, List.nil_append, hp, hr]
    · intro hn
      rw [h1] at hn
      cases hn
  · rw [h3] at hfail
    exact absurd rfl hfail

/-- A cycle that fails while enriching: either the loaded value is not a list
and nothing was constructed, or the loop failed at a position `k` of the list,
and then the registry holds exactly the `k` objects constructed from the first
`k` descriptors, and the constructor calls are those `k` calls, followed by the
call that threw when it was the constructor that failed. -/
theorem enriching_failure_exact (env : Env) (input : CycleInput) (st : AppState)
    (hfail : (initializeApp env input st).outcome = .failedEnriching) :
    (loadServers env input st = .ok .notList ∧
      (initializeApp env input st).state.serverRegistrations = [] ∧
      constructions (initializeApp env input st).trace = []) ∨
    (∃ ds k msg, loadServers env input st = .ok (.list ds) ∧ k < ds.length ∧
      (∀ d ∈ ds.take k, (backfillColor env d).2 = .ok (backfilled env d)) ∧
      (∀ i d, (ds.take k)[i]? = some d →
        env.ctorThrows ((initializeApp env input st).state.serverRegistrations.take i) i
          (backfilled env d) = none) ∧
      (initializeApp env input st).state.serverRegistrations =
        (ds.take k).mapIdx (fun i d => ⟨st.nextObjectId + i, i, backfilled env d⟩) ∧
      (∃ before, (initializeApp env input st).trace =
        before ++ [.log .error ("Failed to load servers: " ++ msg)]) ∧
      ((∃ d, ds[k]? = some d ∧ (backfillColor env d).2 = .error msg ∧
          constructions (initializeApp env input st).trace =
            (ds.take k).mapIdx (fun i d =>
              ((initializeApp env input st).state.serverRegistrations.take i, i,
                backfilled env d))) ∨
        (∃ d d1, ds[k]? = some d ∧ (backfillColor env d).2 = .ok d1 ∧
          env.ctorThrows (initializeApp env input st).state.serverRegistrations k d1 =
            some msg ∧
          constructions (initializeApp env input st).trace =
            (ds.take k).mapIdx (fun i d =>
              ((initializeApp env input st).state.serverRegistrations.take i, i,
                backfilled env d)) ++
              [((initializeApp env input st).state.serverRegistrations, k, d1)]))) := by
  rcases initializeApp_cases env input st with ⟨msg, _, h3⟩ | ⟨h1, h3⟩ | ⟨ds, msg, h1, h2, h3⟩ |
    ⟨ds, _, _, h3⟩
  · rw [h3] at hfail; simp at hfail
  · left
    rw [h3]
    exact ⟨h1, rfl, rfl⟩
  · right
    obtain ⟨m, hm, hok, hnot, hregs, hcase⟩ :=
      forEachServer_fails env ds 0 (loopStart st) msg rfl h2
    have hc0 : constructions (loopStart st).trace = [] := rfl
    have hr0 : (loopStart st).registrations = [] := rfl
    have hn0 : (loopStart st).nextObjectId = st.nextObjectId := rfl
    rw [hr0, hn0] at hregs
    rw [hc0] at hcase
    simp only [List.nil_append, Nat.zero_add] at hnot hregs hcase
    rw [h3]
    simp only
    refine ⟨ds, m, msg, h1, hm, hok, hnot, hregs, ⟨_, rfl⟩, ?_⟩
    rw [constructions_append, constructions_catchHandler, List.append_nil]
    exact hcase
  · rw [h3] at hfail; simp at hfail

/-! ## Defaults and readiness -/

theorem applyGraphDurationDefault_logToDatabase (config : Config) :
    (applyGraphDurationDefault config).1.logToDatabase = config.logToDatabase := by
  unfold applyGraphDurationDefault
  split_ifs <;> rfl

theorem applyGraphDurationDefault_counts (config : Config) :
    readyCount (applyGraphDurationDefault config).2 = 0 ∧
    loadDatabaseCount (applyGraphDurationDefault config).2 = 0 := by
  unfold applyGraphDurationDefault
  split_ifs <;> simp [readyCount, loadDatabaseCount]

theorem callbacks_counts (k : Nat) :
    readyCount (List.replicate k [Event.databaseCallback, Event.handleReady]).flatten = k ∧
    loadDatabaseCount (List.replicate k [Event.databaseCallback, Event.handleReady]).flatten = 0 ∧
    graphDurationWarnings
      (List.replicate k [Event.databaseCallback, Event.handleReady]).flatten = 0 := by
  induction k with
  | zero => simp [readyCount, loadDatabaseCount, graphDurationWarnings]
  | succ k ih =>
    obtain ⟨a, b, c⟩ := ih
    simp only [readyCount, loadDatabaseCount, graphDurationWarnings] at a b c ⊢
    simp only [List.replicate_succ, List.flatten_cons, List.count_append, a, b, c]
    refine ⟨?_, ?_, ?_⟩ <;> simp
    omega

theorem signalReady_warnings (config : Config) (k : Nat) :
    graphDurationWarnings (signalReady config k) = 0 := by
  obtain ⟨_, _, c⟩ := callbacks_counts k
  unfold signalReady
  split_ifs
  · have := graphDurationWarning_ne
    simp only [graphDurationWarnings, List.count_cons, List.count_nil, beq_iff_eq]
    simp [Ne.symm this]
  · simp only [graphDurationWarnings] at c ⊢
    rw [List.count_cons, c]
    simp

/-- A cycle that starts with a truthy `serverGraphDuration` leaves `config` as
it is and emits no warning about it. -/
theorem cycle_keeps_graph_duration (env : Env) (input : CycleInput) (st : AppState)
    (h : truthyNumber st.config.serverGraphDuration = true) :
    (initializeApp env input st).state.config = st.config ∧
    graphDurationWarnings (initializeApp env input st).trace = 0 := by
  have hd : applyGraphDurationDefault st.config = (st.config, []) := by
    unfold applyGraphDurationDefault
    rw [h]
    rfl
  rcases initializeApp_cases env input st with ⟨msg, _, h3⟩ | ⟨_, h3⟩ | ⟨ds, msg, _, _, h3⟩ |
    ⟨ds, _, _, h3⟩
  · rw [h3]; exact ⟨rfl, by simp [catchHandler, graphDurationWarnings]⟩
  · rw [h3]; exact ⟨rfl, by simp [catchHandler, loadingLine, graphDurationWarnings]⟩
  · obtain ⟨_, _, _, c4⟩ := loop_trace_counts env ds st
    rw [h3]
    refine ⟨rfl, ?_⟩
    simp only
    rw [graphDurationWarnings_append, c4]
    simp [catchHandler, graphDurationWarnings]
  · obtain ⟨_, _, _, c4⟩ := loop_trace_counts env ds st
    rw [h3, hd]
    refine ⟨rfl, ?_⟩
    simp only
    rw [graphDurationWarnings_append, graphDurationWarnings_append, c4, signalReady_warnings]
    rfl

theorem runCycles_keep_graph_duration (env : Env) (v : Int) (hv : v ≠ 0) :
    ∀ (inputs : List CycleInput) (st : AppState),
    st.config.serverGraphDuration = some v →
    ∀ r ∈ runCycles env inputs st,
      graphDurationWarnings r.trace = 0 ∧ r.state.config.serverGraphDuration = some v := by
  intro inputs
  induction inputs with
  | nil => intro st _ r hr; simp [runCycles] at hr
  | cons input later ih =>
    intro st hst r hr
    have ht : truthyNumber st.config.serverGraphDuration = true := by
      rw [hst]; simpa [truthyNumber] using hv
    obtain ⟨k1, k2⟩ := cycle_keeps_graph_duration env input st ht
    simp only [runCycles, List.mem_cons] at hr
    rcases hr with rfl | hr
    · exact ⟨k2, by rw [k1]; exact hst⟩
    · exact ih _ (by rw [k1]; exact hst) r hr

/-! ## Claims -/

/-- Claim C2, as amended.  For every name, the hash that the loop
`hash = charCode(i) + ((hash << 5) - hash)` computes, walking from the last
code unit to the first and starting from 0, is congruent modulo `2 ^ 32` to
the sum over `i` of `charCode(i) * 31 ^ i` (`i` counted from the first code
unit), so ToInt32 of the final hash is the signed 32-bit wrap of that sum.
Only the shift is a 32-bit operation: each step is
`charCode + (ToInt32(ToInt32(hash) * 32) - hash)`, and the hash itself is not
wrapped. -/
theorem nameHash_congruent_polynomial (name : List Nat) :
    nameHash name ≡ ∑ i in Finset.range name.length, (name.getD i 0 : Int) * 31 ^ i
      [ZMOD 4294967296] ∧
    toInt32 (nameHash name) =
      toInt32 (∑ i in Finset.range name.length, (name.getD i 0 : Int) * 31 ^ i) ∧
    ∀ (hash : Int) (charCode : Nat),
      hashStep hash charCode = (charCode : Int) + (toInt32 (toInt32 hash * 32) - hash) := by
  rw [← polySum_eq_sum]
  exact ⟨nameHash_modEq name, toInt32_congr (nameHash_modEq name), fun _ _ => rfl⟩

/-- Claim C2, counterexample.  For the name `Mineplex` the loop ends with the
hash `-2969065442`, which is not the signed 32-bit wrap `1325901854` of the
polynomial sum and lies outside `[-2 ^ 31, 2 ^ 31 - 1]`. -/
theorem nameHash_mineplex_outside_int32 :
    nameHash mineplex = -2969065442 ∧
    toInt32 (∑ i in Finset.range mineplex.length, (mineplex.getD i 0 : Int) * 31 ^ i) = 1325901854 ∧
    ¬ (-2147483648 ≤ nameHash mineplex ∧ nameHash mineplex ≤ 2147483647) := by
  have h : nameHash mineplex = -2969065442 := by decide!
  refine ⟨h, ?_, ?_⟩
  · rw [← polySum_eq_sum]; decide!
  · rw [h]; norm_num

/-- Claim C10.  For every `s` of an ordered field with a floor function (the
reals among them), the value the code computes,
`floor(|((s * 10000) rem 1) * 16777216|)` with the truncating remainder of
JavaScript and the absolute value taken last, equals the value of the formula
in the specification, `floor(frac(|s| * 10000) * 16777216)` with the absolute
value taken first. -/
theorem colorValue_eq_specColorValue {α : Type} [LinearOrderedField α] [FloorRing α] (s : α) :
    colorValue s = specColorValue s := by
  rw [colorValue_eq_fract]
  unfold specColorValue
  rw [abs_mul, abs_of_pos (by norm_num : (0 : α) < 10000)]

/-- Claim C1.  For every name (the empty one included) and whatever
`Math.sin` returns, the colour derived at lines 57 to 63 is the character `#`
followed by the hexadecimal digits of the colour value, left-padded with `0`
to exactly six lower-case hexadecimal digits, so the string has length 7; the
colour is a function of the name alone, so every descriptor without a colour
that carries this name receives this very string.  For every `s` of an ordered
field with a floor function (the reals, and the rationals that hold every
double), with no need for the bound `-1 ≤ s ≤ 1`, the value
`floor(|((s * 10000) rem 1) * 16777216|)` lies in `[0, 2 ^ 24)`, its
hexadecimal rendering has between 1 and 6 digits, and the padding consists of
exactly `6 - digits` zeros. -/
theorem derived_color_shape (env : Env) (name : List Nat) :
    deriveColor env.sin name =
      .ok (String.mk ('#' :: (List.replicate (6 - (colorDigits env.sin name).length) '0'
        ++ colorDigits env.sin name))) ∧
    (List.replicate (6 - (colorDigits env.sin name).length) '0'
      ++ colorDigits env.sin name).length = 6 ∧
    (∀ c ∈ List.replicate (6 - (colorDigits env.sin name).length) '0'
      ++ colorDigits env.sin name, isHexDigit c = true) ∧
    (∀ color, deriveColor env.sin name = .ok color → color.length = 7) ∧
    (∀ server : Descriptor, server.name = some name → truthyString server.color = false →
      (backfillColor env server).2 =
        (deriveColor env.sin name).map (fun color => { server with color := some color })) ∧
    (∀ (α : Type) [LinearOrderedField α] [FloorRing α] (s : α),
      0 ≤ colorValue s ∧ colorValue s < 2 ^ 24 ∧
      1 ≤ (toStringHex (colorValue s)).length ∧ (toStringHex (colorValue s)).length ≤ 6 ∧
      zeroPadding (toStringHex (colorValue s)).length =
        .ok (List.replicate (6 - (toStringHex (colorValue s)).length) '0')) := by
  have hl := colorDigits_length env.sin name
  have hlen : (List.replicate (6 - (colorDigits env.sin name).length) '0'
      ++ colorDigits env.sin name).length = 6 := by
    rw [List.length_append, List.length_replicate]; omega
  refine ⟨deriveColor_ok env.sin name, hlen, ?_, ?_, ?_, ?_⟩
  · intro c hc
    rcases List.mem_append.mp hc with h | h
    · rw [(List.mem_replicate.mp h).2]; decide
    · exact toStringHex_hex _ (colorValue_range _).1 c h
  · intro color hcolor
    rw [deriveColor_ok] at hcolor
    cases hcolor
    rw [String.length, List.length_cons, hlen]
  · intro server hn hcol
    unfold backfillColor
    rw [hcol, hn]
    simp only [Bool.not_false, if_true]
    rw [deriveColor_ok]
    rfl
  · intro α _ _ s
    have hr := colorValue_range s
    have hs := toStringHex_length _ hr.1 hr.2
    exact ⟨hr.1, by norm_num; exact hr.2, hs.1, hs.2, zeroPadding_of_le _ hs.2⟩

theorem derived_color_shape_witness :
    alpha.name = some alphaName ∧ truthyString alpha.color = false ∧
    (backfillColor sampleEnv alpha).2 =
      (deriveColor sampleEnv.sin alphaName).map (fun color => { alpha with color := some color }) ∧
    (deriveColor sampleEnv.sin alphaName).toOption = some "#1c71c7" ∧
    (deriveColor sampleEnv.sin []).toOption = some "#000000" :=
  ⟨rfl, rfl, (derived_color_shape sampleEnv alphaName).2.2.2.2.1 alpha rfl rfl, by decide!,
    by decide!⟩

/-- Claim C5.  In a cycle with a remote location configured whose HTTP
response has `response.ok` false, the cycle ends in the failed state reached
from loading: the whole state (the registry and `config`) is as before, the
trace consists of exactly one call, the error-level diagnostic whose message
carries the status text, so no registration object is constructed, readiness
is not signalled, the database is not loaded and no configuration default is
applied; a registry that was non-empty is still non-empty. -/
theorem http_error_fails_cycle (env : Env) (input : CycleInput) (st : AppState)
    (statusText : String) (json : Except String Loaded)
    (hurl : truthyString st.config.serversUrl = true)
    (hresp : input.fetched = .response false statusText json) :
    (initializeApp env input st).outcome = .failedLoading ∧
    (initializeApp env input st).state = st ∧
    (initializeApp env input st).trace =
      [.log .error ("Failed to load servers: Network response was not ok: " ++ statusText)] ∧
    constructions (initializeApp env input st).trace = [] ∧
    readyCount (initializeApp env input st).trace = 0 ∧
    loadDatabaseCount (initializeApp env input st).trace = 0 ∧
    graphDurationWarnings (initializeApp env input st).trace = 0 ∧
    errorCount (initializeApp env input st).trace = 1 ∧
    (st.serverRegistrations ≠ [] → (initializeApp env input st).state.serverRegistrations ≠ []) := by
  have hl : loadServers env input st =
      .error ("Network response was not ok: " ++ statusText) := by
    simp [loadServers, hurl, hresp, loadServersFromUrl]
  have hr : initializeApp env input st =
      ⟨st, catchHandler ("Network response was not ok: " ++ statusText), .failedLoading⟩ := by
    simp only [initializeApp, hl]
  rw [hr]
  refine ⟨rfl, rfl, rfl, rfl, ?_, ?_, ?_, ?_, fun h => h⟩ <;>
    simp [catchHandler, readyCount, loadDatabaseCount, graphDurationWarnings, errorCount]

theorem http_error_fails_cycle_witness :
    (initializeApp sampleEnv badGatewayInput remoteState).state = remoteState ∧
    (initializeApp sampleEnv badGatewayInput remoteState).trace =
      [.log .error "Failed to load servers: Network response was not ok: Bad Gateway"] ∧
    errorCount (initializeApp sampleEnv badGatewayInput remoteState).trace = 1 := by
  have h := http_error_fails_cycle sampleEnv badGatewayInput remoteState "Bad Gateway"
    (.error "unused") (by decide) rfl
  exact ⟨h.2.1, h.2.2.1, h.2.2.2.2.2.2.2.1⟩

/-- Claim C4, counterexample.  When the loaded value is not a list the cycle
fails while enriching, and the registry, which held one registration before
the cycle, is empty afterwards. -/
theorem failed_enriching_clears_registry :
    (initializeApp sampleEnv objectInput remoteState).outcome = .failedEnriching ∧
    remoteState.serverRegistrations = [oldRegistration] ∧
    (initializeApp sampleEnv objectInput remoteState).state.serverRegistrations = [] ∧
    (initializeApp sampleEnv objectInput remoteState).state.serverRegistrations ≠
      remoteState.serverRegistrations := by
  decide

/-- Claim C4, as amended.  Every cycle that ends in a failed state emits
exactly one error-level diagnostic, as its last call, does not signal
readiness, does not load the database and leaves `config` unchanged.  When
the failure arises while loading, the state is exactly the state before the
cycle.  When it arises while enriching, the previous registry has been
discarded and the registry holds exactly the registration objects constructed
before the failure: none when the loaded value is not a list; otherwise the
loop failed at a position `k` of the loaded list, the first at which the
backfill or the constructor throws, the registry is the list of the `k` fresh
objects constructed from positions `0` to `k - 1` and the descriptors there
with their colours backfilled, and the constructor calls of the cycle are
exactly those `k` calls, followed by the one call that threw when it was the
constructor, not the backfill, that failed at position `k`. -/
theorem failed_cycle_effects (env : Env) (input : CycleInput) (st : AppState)
    (hfail : (initializeApp env input st).outcome ≠ .ready) :
    (∃ before msg,
      (initializeApp env input st).trace =
        before ++ [.log .error ("Failed to load servers: " ++ msg)] ∧
      errorCount before = 0) ∧
    errorCount (initializeApp env input st).trace = 1 ∧
    readyCount (initializeApp env input st).trace = 0 ∧
    loadDatabaseCount (initializeApp env input st).trace = 0 ∧
    (initializeApp env input st).state.config = st.config ∧
    ((initializeApp env input st).outcome = .failedLoading →
      (initializeApp env input st).state = st) ∧
    ((initializeApp env input st).outcome = .failedEnriching →
      (∀ x ∈ (initializeApp env input st).state.serverRegistrations,
        st.nextObjectId ≤ x.objectId) ∧
      (st.WellFormed → ∀ x ∈ (initializeApp env input st).state.serverRegistrations,
        x ∉ st.serverRegistrations) ∧
      (∃ tail, (constructions (initializeApp env input st).trace).map (fun c => (c.2.1, c.2.2)) =
        (initializeApp env input st).state.serverRegistrations.map
          (fun x => (x.serverId, x.data)) ++ tail) ∧
      (loadServers env input st = .ok .notList →
        (initializeApp env input st).state.serverRegistrations = []) ∧
      ((loadServers env input st = .ok .notList ∧
        (initializeApp env input st).state.serverRegistrations = [] ∧
        constructions (initializeApp env input st).trace = []) ∨
      (∃ ds k msg, loadServers env input st = .ok (.list ds) ∧ k < ds.length ∧
        (∀ d ∈ ds.take k, (backfillColor env d).2 = .ok (backfilled env d)) ∧
        (∀ i d, (ds.take k)[i]? = some d →
          env.ctorThrows ((initializeApp env input st).state.serverRegistrations.take i) i
            (backfilled env d) = none) ∧
        (initializeApp env input st).state.serverRegistrations =
          (ds.take k).mapIdx (fun i d => ⟨st.nextObjectId + i, i, backfilled env d⟩) ∧
        (∃ before, (initializeApp env input st).trace =
          before ++ [.log .error ("Failed to load servers: " ++ msg)]) ∧
        ((∃ d, ds[k]? = some d ∧ (backfillColor env d).2 = .error msg ∧
            constructions (initializeApp env input st).trace =
              (ds.take k).mapIdx (fun i d =>
                ((initializeApp env input st).state.serverRegistrations.take i, i,
                  backfilled env d))) ∨
          (∃ d d1, ds[k]? = some d ∧ (backfillColor env d).2 = .ok d1 ∧
            env.ctorThrows (initializeApp env input st).state.serverRegistrations k d1 =
              some msg ∧
            constructions (initializeApp env input st).trace =
              (ds.take k).mapIdx (fun i d =>
                ((initializeApp env input st).state.serverRegistrations.take i, i,
                  backfilled env d)) ++
                [((initializeApp env input st).state.serverRegistrations, k, d1)]))))) := by
  obtain ⟨a, b, c, d, e, f, g⟩ := failed_cycle_summary env input st hfail
  exact ⟨a, b, c, d, e, f, fun h =>
    ⟨(g h).1, (g h).2.1, (g h).2.2.1, (g h).2.2.2, enriching_failure_exact env input st h⟩⟩

theorem failed_cycle_effects_witness :
    (initializeApp sampleEnv namelessInput remoteState).outcome ≠ .ready ∧
    errorCount (initializeApp sampleEnv namelessInput remoteState).trace = 1 ∧
    readyCount (initializeApp sampleEnv namelessInput remoteState).trace = 0 ∧
    (initializeApp sampleEnv namelessInput remoteState).state.config = remoteState.config ∧
    (initializeApp sampleEnv namelessInput remoteState).state.serverRegistrations =
      [⟨1, 0, ⟨some alphaName, some "#1c71c7", []⟩⟩] ∧
    constructions (initializeApp sampleEnv namelessInput remoteState).trace =
      [([], 0, ⟨some alphaName, some "#1c71c7", []⟩)] ∧
    (initializeApp throwingEnv listInput remoteState).outcome ≠ .ready ∧
    errorCount (initializeApp throwingEnv listInput remoteState).trace = 1 ∧
    (initializeApp throwingEnv listInput remoteState).state.serverRegistrations =
      [⟨1, 0, ⟨some alphaName, some "#1c71c7", []⟩⟩] ∧
    (constructions (initializeApp throwingEnv listInput remoteState).trace).length = 2 :=
  ⟨by decide!,
    (failed_cycle_effects sampleEnv namelessInput remoteState (by decide!)).2.1,
    (failed_cycle_effects sampleEnv namelessInput remoteState (by decide!)).2.2.1,
    (failed_cycle_effects sampleEnv namelessInput remoteState (by decide!)).2.2.2.2.1,
    by decide!, by decide!, by decide!,
    (failed_cycle_effects throwingEnv listInput remoteState (by decide!)).2.1,
    by decide!, by decide!⟩

/-- Claim C6, counterexample.  In a cycle over the two sample descriptors,
started with one registration installed, the first constructor call sees an
empty registry and the second sees a registry of one entry: neither is the
previous registry, neither is the new registry of length 2. -/
theorem constructor_sees_unfinished_registry :
    (constructions (initializeApp sampleEnv listInput remoteState).trace).map (fun c => c.1) =
      [[], [⟨1, 0, ⟨some alphaName, some "#1c71c7", []⟩⟩]] ∧
    remoteState.serverRegistrations = [oldRegistration] ∧
    (initializeApp sampleEnv listInput remoteState).state.serverRegistrations.length = 2 ∧
    (∀ c ∈ constructions (initializeApp sampleEnv listInput remoteState).trace,
      c.1 ≠ remoteState.serverRegistrations ∧
      c.1 ≠ (initializeApp sampleEnv listInput remoteState).state.serverRegistrations) := by
  decide!

/-- Claim C6, as amended.  In every cycle that loads a list of `n`
descriptors, when the registration object for position `i` is constructed the
registry readable through `app.serverRegistrations` holds exactly the `i`
registration objects built earlier in the same cycle (it is empty for
`i = 0`) and none of the previous cycle; only when the cycle has reached the
ready state does the registry hold the complete new sequence of length `n`,
after exactly `n` constructor calls. -/
theorem registry_seen_by_constructor (env : Env) (input : CycleInput) (st : AppState)
    (ds : List Descriptor) (hl : loadServers env input st = .ok (.list ds)) :
    (∀ seen i d, (seen, i, d) ∈ constructions (initializeApp env input st).trace →
      seen = (initializeApp env input st).state.serverRegistrations.take i ∧
      seen.length = i ∧ i < ds.length ∧
      (st.WellFormed → ∀ x ∈ seen, x ∉ st.serverRegistrations)) ∧
    ((initializeApp env input st).outcome = .ready →
      (initializeApp env input st).state.serverRegistrations.length = ds.length ∧
      (constructions (initializeApp env input st).trace).length = ds.length) := by
  obtain ⟨regs, calls, after, h, h1, _, _, h4, h5⟩ := cycle_on_list env input st ds hl
  have hfresh : ∀ r ∈ regs, st.nextObjectId ≤ r.objectId ∧
      r.objectId < (forEachServer env ds 0 (loopStart st)).1.nextObjectId := h.fresh
  have hseen : ∀ x ∈ constructions calls,
      x.1 = regs.take x.2.1 ∧ x.1.length = x.2.1 ∧
      ∃ d, ds[x.2.1 - 0]? = some d ∧ 0 ≤ x.2.1 ∧ (backfillColor env d).2 = .ok x.2.2 := h.seen_eq
  constructor
  · intro seen i d hm
    rw [h4] at hm
    obtain ⟨a, b, d0, c, _, _⟩ := hseen _ hm
    simp only [Nat.sub_zero] at a b c
    refine ⟨by rw [h1]; exact a, b, ?_, ?_⟩
    · exact (List.getElem?_eq_some_iff.mp c).1
    · intro hwf x hx hmem
      rw [a] at hx
      have := (hfresh x (List.mem_of_mem_take hx)).1
      have := hwf x hmem
      omega
  · intro hready
    have hnone := h5.mp hready
    obtain ⟨l1, l2⟩ := forEachServer_none_length env ds 0 (loopStart st) hnone
    have hr : (forEachServer env ds 0 (loopStart st)).1.registrations = regs :=
      h.registrations_eq
    have ht := h.trace_eq
    constructor
    · rw [h1, ← hr, l1]; simp [loopStart]
    · rw [h4]
      rw [ht, constructions_append] at l2
      simpa [loopStart, constructions, loadingLine] using l2

theorem registry_seen_by_constructor_witness :
    loadServers sampleEnv listInput remoteState = .ok (.list [alpha, beta]) ∧
    (initializeApp sampleEnv listInput remoteState).state.serverRegistrations.length = 2 ∧
    (constructions (initializeApp sampleEnv listInput remoteState).trace).length = 2 :=
  ⟨by decide,
    (registry_seen_by_constructor sampleEnv listInput remoteState [alpha, beta] (by decide)).2
      (by decide!)⟩

/-- Claim C3, counterexample.  A descriptor whose `color` field is the empty
string does not keep it: the derivation runs (one call of `Math.sin`) and the
colour becomes the derived one, which is what the constructor is passed. -/
theorem empty_color_is_replaced :
    blankColor.color = some "" ∧
    backfillColor sampleEnv blankColor =
      ([.mathSin 92790846], .ok ⟨some alphaName, some "#1c71c7", []⟩) ∧
    constructions (initializeApp sampleEnv blankInput remoteState).trace =
      [([], 0, ⟨some alphaName, some "#1c71c7", []⟩)] := by
  decide!

/-- Claim C3, as amended.  A descriptor whose `color` field is a non-empty
string is left exactly as it is and no derivation call is made for it; a
descriptor with no `color` field or with the empty string, and with a name,
gets the colour derived from its name after one call of `Math.sin`; and in
every cycle the descriptor passed to the constructor at the position of a
descriptor with a non-empty colour is that descriptor itself. -/
theorem explicit_color_kept (env : Env) (server : Descriptor) :
    (truthyString server.color = true → backfillColor env server = ([], .ok server)) ∧
    (truthyString server.color = false → ∀ name, server.name = some name →
      ∃ c, deriveColor env.sin name = .ok c ∧
        backfillColor env server =
          ([.mathSin (nameHash name)], .ok { server with color := some c })) ∧
    (truthyString server.color = true →
      ∀ (input : CycleInput) (st : AppState) (ds : List Descriptor) seen i passed,
        loadServers env input st = .ok (.list ds) → ds[i]? = some server →
        (seen, i, passed) ∈ constructions (initializeApp env input st).trace →
        passed = server) := by
  refine ⟨backfillColor_keeps env server,
    fun h name hn => backfillColor_derives env server name h hn, ?_⟩
  intro hc input st ds seen i passed hl hi hm
  obtain ⟨regs, calls, after, h, _, _, _, h4, _⟩ := cycle_on_list env input st ds hl
  rw [h4] at hm
  obtain ⟨_, _, d0, c, _, hb⟩ := h.seen_eq _ hm
  simp only [Nat.sub_zero] at c
  rw [hi] at c
  cases c
  rw [backfillColor_keeps env server hc] at hb
  cases hb
  rfl

theorem explicit_color_kept_witness :
    truthyString beta.color = true ∧ backfillColor sampleEnv beta = ([], .ok beta) :=
  ⟨by decide, (explicit_color_kept sampleEnv beta).1 (by decide)⟩

/-- Claim C7.  For a loaded list of `n` descriptors that all have a name
(`n = 0` included), a constructor that does not throw and any previously
installed registry (of objects allocated before the cycle, which every cycle
maintains), the cycle reaches the ready state; afterwards the
registry has exactly `n` entries, none of them an entry of the previous
registry; entry `i` is the fresh object constructed from position `i` and the
`i`-th descriptor with its colour backfilled (kept when non-empty, derived
from the name otherwise); the constructor calls are exactly these `n` calls
in source order; an empty list installs an empty registry with no
constructor call. -/
theorem successful_cycle_registry (env : Env) (input : CycleInput) (st : AppState)
    (ds : List Descriptor)
    (hl : loadServers env input st = .ok (.list ds))
    (hnames : ∀ d ∈ ds, d.name ≠ none)
    (hctor : ∀ seen i d, env.ctorThrows seen i d = none)
    (hwf : st.WellFormed) :
    (initializeApp env input st).outcome = .ready ∧
    (initializeApp env input st).state.serverRegistrations =
      ds.mapIdx (fun i d => ⟨st.nextObjectId + i, i, backfilled env d⟩) ∧
    (initializeApp env input st).state.serverRegistrations.length = ds.length ∧
    (∀ x ∈ (initializeApp env input st).state.serverRegistrations,
      x ∉ st.serverRegistrations) ∧
    constructions (initializeApp env input st).trace =
      ds.mapIdx (fun i d =>
        ((initializeApp env input st).state.serverRegistrations.take i, i, backfilled env d)) ∧
    (constructions (initializeApp env input st).trace).length = ds.length ∧
    (∀ d ∈ ds,
      (truthyString d.color = true → backfilled env d = d) ∧
      (truthyString d.color = false → ∀ name, d.name = some name →
        ∃ c, deriveColor env.sin name = .ok c ∧ backfilled env d = { d with color := some c })) ∧
    (ds = [] →
      (initializeApp env input st).state.serverRegistrations = [] ∧
      constructions (initializeApp env input st).trace = []) := by
  obtain ⟨s1, _, s3, s4⟩ := forEachServer_succeeds env hctor ds 0 (loopStart st)
    (fun d hd => backfillColor_ok_of_name env d (hnames d hd)) rfl
  obtain ⟨regs, calls, after, h, h1, _, _, h4, h5⟩ := cycle_on_list env input st ds hl
  have hr : (forEachServer env ds 0 (loopStart st)).1.registrations = regs :=
    h.registrations_eq
  have ht := h.trace_eq
  have hregs : (initializeApp env input st).state.serverRegistrations =
      ds.mapIdx (fun i d => ⟨st.nextObjectId + i, i, backfilled env d⟩) := by
    rw [h1, ← hr, s3]
    simp [loopStart]
  have hcons : constructions (initializeApp env input st).trace =
      ds.mapIdx (fun i d =>
        ((initializeApp env input st).state.serverRegistrations.take i, i, backfilled env d)) := by
    rw [h4, h1, ← hr]
    rw [ht, constructions_append] at s4
    have hc : constructions (loopStart st).trace = [] := rfl
    rw [hc, List.nil_append] at s4
    rw [s4]
    simp
  refine ⟨h5.mpr s1, hregs, ?_, ?_, hcons, ?_, ?_, ?_⟩
  · rw [hregs, List.length_mapIdx]
  · intro x hx hmem
    rw [h1] at hx
    have := (h.fresh x hx).1
    have := hwf x hmem
    simp only [loopStart] at *
    omega
  · rw [hcons, List.length_mapIdx]
  · intro d _
    constructor
    · intro hc
      exact backfilled_of_ok env d d (by rw [backfillColor_keeps env d hc])
    · intro hc name hn
      obtain ⟨c, c1, c2⟩ := backfillColor_derives env d name hc hn
      exact ⟨c, c1, backfilled_of_ok env d _ (by rw [c2])⟩
  · intro he
    rw [hcons, hregs, he]
    exact ⟨rfl, rfl⟩

theorem successful_cycle_registry_witness :
    loadServers sampleEnv listInput remoteState = .ok (.list [alpha, beta]) ∧
    (initializeApp sampleEnv listInput remoteState).state.serverRegistrations.length = 2 ∧
    (initializeApp sampleEnv listInput remoteState).state.serverRegistrations.map
        (fun r => r.data.color) =
      [(deriveColor sampleEnv.sin alphaName).toOption, some "#112233"] ∧
    (constructions (initializeApp sampleEnv listInput remoteState).trace).length = 2 :=
  ⟨by decide,
    (successful_cycle_registry sampleEnv listInput remoteState [alpha, beta] (by decide)
      (by decide) (fun _ _ _ => rfl) remoteState_wellFormed).2.2.1,
    by decide!,
    (successful_cycle_registry sampleEnv listInput remoteState [alpha, beta] (by decide)
      (by decide) (fun _ _ _ => rfl) remoteState_wellFormed).2.2.2.2.2.1⟩

/-- Claim C8.  In a cycle that reaches the ready state: when
`config.logToDatabase` is absent or false, `app.loadDatabase` is not invoked
and the trace ends with the warning followed by the one call of
`app.handleReady`; when it is true, `app.loadDatabase` is invoked exactly
once, no `app.handleReady` precedes it, and afterwards each invocation of the
completion callback is followed by one call of `app.handleReady`, so there are
as many readiness calls as callback invocations; hence readiness is signalled
exactly once whenever the database loader invokes its callback exactly once,
as its contract says. -/
theorem readiness_signalled_once (env : Env) (input : CycleInput) (st : AppState)
    (hready : (initializeApp env input st).outcome = .ready) :
    (truthyBool st.config.logToDatabase = false →
      loadDatabaseCount (initializeApp env input st).trace = 0 ∧
      readyCount (initializeApp env input st).trace = 1 ∧
      ∃ before, (initializeApp env input st).trace =
          before ++ [.log .warn databaseWarning, .handleReady] ∧
        readyCount before = 0) ∧
    (truthyBool st.config.logToDatabase = true →
      loadDatabaseCount (initializeApp env input st).trace = 1 ∧
      readyCount (initializeApp env input st).trace = input.databaseCallbackRuns ∧
      ∃ before, (initializeApp env input st).trace =
          before ++ .loadDatabase ::
            (List.replicate input.databaseCallbackRuns
              [Event.databaseCallback, Event.handleReady]).flatten ∧
        readyCount before = 0 ∧ loadDatabaseCount before = 0) ∧
    ((truthyBool st.config.logToDatabase = true → input.databaseCallbackRuns = 1) →
      readyCount (initializeApp env input st).trace = 1) := by
  rcases initializeApp_cases env input st with ⟨msg, _, h3⟩ | ⟨_, h3⟩ | ⟨ds, msg, _, _, h3⟩ |
    ⟨ds, _, _, h3⟩
  · rw [h3] at hready; simp at hready
  · rw [h3] at hready; simp at hready
  · rw [h3] at hready; simp at hready
  · obtain ⟨c1, c2, _, _⟩ := loop_trace_counts env ds st
    obtain ⟨d1, d2⟩ := applyGraphDurationDefault_counts st.config
    obtain ⟨k1, k2, _⟩ := callbacks_counts input.databaseCallbackRuns
    have hb1 : readyCount ((forEachServer env ds 0 (loopStart st)).1.trace ++
        (applyGraphDurationDefault st.config).2) = 0 := by
      rw [readyCount_append, c1, d1]
    have hb2 : loadDatabaseCount ((forEachServer env ds 0 (loopStart st)).1.trace ++
        (applyGraphDurationDefault st.config).2) = 0 := by
      rw [loadDatabaseCount_append, c2, d2]
    have hoff : truthyBool st.config.logToDatabase = false →
        signalReady (applyGraphDurationDefault st.config).1 input.databaseCallbackRuns =
          [.log .warn databaseWarning, .handleReady] := by
      intro h
      unfold signalReady
      rw [applyGraphDurationDefault_logToDatabase, h]
      rfl
    have hon : truthyBool st.config.logToDatabase = true →
        signalReady (applyGraphDurationDefault st.config).1 input.databaseCallbackRuns =
          .loadDatabase :: (List.replicate input.databaseCallbackRuns
            [Event.databaseCallback, Event.handleReady]).flatten := by
      intro h
      unfold signalReady
      rw [applyGraphDurationDefault_logToDatabase, h]
      rfl
    have hcount_off : truthyBool st.config.logToDatabase = false →
        loadDatabaseCount (initializeApp env input st).trace = 0 ∧
        readyCount (initializeApp env input st).trace = 1 := by
      intro h
      rw [h3]
      simp only
      rw [loadDatabaseCount_append, readyCount_append, hb1, hb2, hoff h]
      simp [loadDatabaseCount, readyCount]
    have hcount_on : truthyBool st.config.logToDatabase = true →
        loadDatabaseCount (initializeApp env input st).trace = 1 ∧
        readyCount (initializeApp env input st).trace = input.databaseCallbackRuns := by
      intro h
      rw [h3]
      simp only
      rw [loadDatabaseCount_append, readyCount_append, hb1, hb2, hon h]
      simp only [loadDatabaseCount, readyCount] at k1 k2 ⊢
      simp [k1, k2]
    refine ⟨fun h => ⟨(hcount_off h).1, (hcount_off h).2, _, ?_, hb1⟩,
      fun h => ⟨(hcount_on h).1, (hcount_on h).2, _, ?_, hb1, hb2⟩, ?_⟩
    · rw [h3, ← hoff h]
    · rw [h3, ← hon h]
    · intro hk
      cases h : truthyBool st.config.logToDatabase with
      | false => exact (hcount_off h).2
      | true => rw [(hcount_on h).2, hk h]

theorem readiness_signalled_once_witness :
    (initializeApp sampleEnv listInput remoteState).outcome = .ready ∧
    truthyBool remoteState.config.logToDatabase = true ∧
    loadDatabaseCount (initializeApp sampleEnv listInput remoteState).trace = 1 ∧
    readyCount (initializeApp sampleEnv listInput remoteState).trace = 1 :=
  ⟨by decide!, by decide,
    ((readiness_signalled_once sampleEnv listInput remoteState (by decide!)).2.1 (by decide)).1,
    (readiness_signalled_once sampleEnv listInput remoteState (by decide!)).2.2 (fun _ => rfl)⟩

/-- Claim C9.  When `serverGraphDuration` is absent, a cycle that reaches
the ready state leaves `config.serverGraphDuration` at 180000 and emits
exactly one warning about it, and every later cycle of the process, whatever
its input and outcome, emits no such warning and leaves the value at 180000.
A configured positive `serverGraphDuration` is left unchanged by every cycle
and produces no such warning. -/
theorem graph_duration_default (env : Env) (input : CycleInput) (st : AppState) :
    (st.config.serverGraphDuration = none →
      (initializeApp env input st).outcome = .ready →
      (initializeApp env input st).state.config.serverGraphDuration = some 180000 ∧
      graphDurationWarnings (initializeApp env input st).trace = 1 ∧
      ∀ later : List CycleInput,
        ∀ r ∈ runCycles env later (initializeApp env input st).state,
          graphDurationWarnings r.trace = 0 ∧
          r.state.config.serverGraphDuration = some 180000) ∧
    (∀ v : Int, 0 < v → st.config.serverGraphDuration = some v →
      ∀ inputs : List CycleInput, ∀ r ∈ runCycles env inputs st,
        graphDurationWarnings r.trace = 0 ∧ r.state.config.serverGraphDuration = some v) := by
  constructor
  · intro habs hready
    have hd : applyGraphDurationDefault st.config =
        ({ st.config with serverGraphDuration := some (3 * 60 * 1000) },
          [.log .warn graphDurationWarning]) := by
      unfold applyGraphDurationDefault
      rw [habs]
      rfl
    have hval : (initializeApp env input st).state.config.serverGraphDuration = some 180000 ∧
        graphDurationWarnings (initializeApp env input st).trace = 1 := by
      rcases initializeApp_cases env input st with ⟨msg, _, h3⟩ | ⟨_, h3⟩ |
        ⟨ds, msg, _, _, h3⟩ | ⟨ds, _, _, h3⟩
      · rw [h3] at hready; simp at hready
      · rw [h3] at hready; simp at hready
      · rw [h3] at hready; simp at hready
      · obtain ⟨_, _, _, c4⟩ := loop_trace_counts env ds st
        rw [h3, hd]
        refine ⟨by norm_num, ?_⟩
        simp only
        rw [graphDurationWarnings_append, graphDurationWarnings_append, c4, signalReady_warnings]
        simp [graphDurationWarnings]
    exact ⟨hval.1, hval.2, fun later =>
      runCycles_keep_graph_duration env 180000 (by norm_num) later _ hval.1⟩
  · intro v hv hst inputs
    exact runCycles_keep_graph_duration env v (by omega) inputs st hst

theorem graph_duration_default_witness :
    localState.config.serverGraphDuration = none ∧
    (initializeApp sampleEnv fileInput localState).outcome = .ready ∧
    (initializeApp sampleEnv fileInput localState).state.config.serverGraphDuration =
      some 180000 ∧
    graphDurationWarnings (initializeApp sampleEnv fileInput localState).trace = 1 ∧
    (∀ r ∈ runCycles sampleEnv [fileInput, badGatewayInput] remoteState,
      graphDurationWarnings r.trace = 0 ∧ r.state.config.serverGraphDuration = some 60000) :=
  ⟨rfl, by decide!,
    ((graph_duration_default sampleEnv fileInput localState).1 rfl (by decide!)).1,
    ((graph_duration_default sampleEnv fileInput localState).1 rfl (by decide!)).2.1,
    (graph_duration_default sampleEnv fileInput remoteState).2 60000 (by decide) rfl _⟩

end Minetrack
